import Mathlib

/-!
Shallow embedding of the claude-memory ingestion and branch-reconstruction
engine: the shared utilities (memory_utils.py), the incremental sync driver
(sync_current.py), the bulk importer (import_conversations.py) and the
context selector (memory-context.py).

Modelling conventions:
- A JSONL file is a list of already-decoded lines (`Line`): blank, malformed
  JSON, or a decoded record (`Entry`).  JSON decoding itself is outside the
  model; field access with Python truthiness is made explicit via `truthyStr`.
- SQLite tables are Lean lists of row structures; rowid allocation follows
  SQLite's max-rowid-plus-one rule for tables declared INTEGER PRIMARY KEY.
- Python sets are modelled by lists with set-like membership; where CPython
  iterates a set in unspecified order, the model fixes a deterministic order
  (noted at each site).  Unbounded while-loops over parent pointers get fuel
  large enough to be exact on every input on which the source terminates.
-/

/-- Python truthiness for an optional string field: a missing key, `None`,
and the empty string are all falsy. -/
def truthyStr : Option String → Option String
  | some "" => none
  | some s => some s
  | none => none

/-- Code-point comparison of character lists, the order Python uses on
strings. -/
def charListLt : List Char → List Char → Bool
  | [], [] => false
  | [], _ :: _ => true
  | _ :: _, [] => false
  | c :: cs, d :: ds =>
    if c.toNat < d.toNat then true
    else if d.toNat < c.toNat then false
    else charListLt cs ds

/-- Python `a < b` on strings: lexicographic by code point. -/
def pyStrLt (a b : String) : Bool := charListLt a.toList b.toList

/-- Python `str.strip()`: drop whitespace from both ends. -/
def pyStrip (s : String) : String :=
  String.mk (((s.toList.dropWhile Char.isWhitespace).reverse.dropWhile
    Char.isWhitespace).reverse)

/-- Python `"\n".join(texts)`. -/
def joinNL : List String → String
  | [] => ""
  | [s] => s
  | s :: rest => s ++ "\n" ++ joinNL rest

/-- Split a character list at the first occurrence of `pat`, returning the
part before the occurrence and the part after it. -/
def splitFirstSub (pat : List Char) : List Char → Option (List Char × List Char)
  | [] => none
  | c :: cs =>
    if pat.isPrefixOf (c :: cs) then some ([], (c :: cs).drop pat.length)
    else
      match splitFirstSub pat cs with
      | some (pre, post) => some (c :: pre, post)
      | none => none

/-- Repeatedly delete the leftmost `openT …​ closeT` span, the span ending at
the first `closeT` after the `openT` (the semantics of the non-greedy
dot-matches-newline `re.sub` calls in `extract_text_content`). -/
def stripSpansGo (openT closeT : List Char) : Nat → List Char → List Char
  | 0, s => s
  | fuel + 1, s =>
    match splitFirstSub openT s with
    | none => s
    | some (pre, rest) =>
      match splitFirstSub closeT rest with
      | none => s
      | some (_, post) => pre ++ stripSpansGo openT closeT fuel post

/-- Delete every `<tag>…</tag>` span from `s` (non-greedy, dot matches
newline), as `re.sub(r'<tag>.*?</tag>', '', s, flags=re.DOTALL)` does. -/
def stripSpans (tag : String) (s : String) : String :=
  String.mk (stripSpansGo ("<" ++ tag ++ ">").toList ("</" ++ tag ++ ">").toList
    (s.toList.length + 1) s.toList)

/-- One typed item of a message-content list. `nonDict` stands for a list
element that is not a JSON object (skipped by every branch of the source);
`other ty` is a dict whose `type` is none of the recognised values. -/
inductive ContentItem where
  | text (s : String)
  | toolUse (name : String) (input : List (String × String))
  | thinking
  | toolResult
  | other (ty : String)
  | nonDict
deriving DecidableEq, Repr

/-- The `message.content` value: a string, a list of typed items, or some
other JSON value (the fall-through case of `extract_text_content`). -/
inductive Content where
  | str (s : String)
  | items (l : List ContentItem)
  | otherVal
deriving DecidableEq, Repr

/-- One decoded JSONL record.  Optional fields model `.get` access; the
`content` field models `record["message"]["content"]` with default `""`. -/
structure Entry where
  type? : Option String := none
  uuid? : Option String := none
  parentUuid? : Option String := none
  timestamp? : Option String := none
  isMeta : Bool := false
  gitBranch? : Option String := none
  cwd? : Option String := none
  content : Content := .str ""
deriving DecidableEq, Repr

/-- One line of a JSONL file as the parser sees it. -/
inductive Line where
  | blank
  | malformed
  | record (e : Entry)
deriving DecidableEq, Repr

namespace memory_utils

/-- `is_tool_result`: the content is a list whose first element is a dict of
type `tool_result`. -/
def is_tool_result : Content → Bool
  | .items (first :: _) =>
    match first with
    | .toolResult => true
    | _ => false
  | _ => false

/-- Increment `tool_counts[name]` in an insertion-ordered map, as the Python
dict update `tool_counts[name] = tool_counts.get(name, 0) + 1` does. -/
def bumpCount : List (String × Nat) → String → List (String × Nat)
  | [], k => [(k, 1)]
  | (k2, v) :: rest, k =>
    if k2 = k then (k2, v + 1) :: rest else (k2, v) :: bumpCount rest k

/-- `memory_utils.extract_text_content`: returns
`(text, has_tool_use, has_thinking, tool_summary)`.  The tool summary models
the JSON object `json.dumps(tool_counts)` as an insertion-ordered
association list.  Tool-use items contribute no text. -/
def extractItemStep (acc : List String × Bool × Bool × List (String × Nat))
    (item : ContentItem) : List String × Bool × Bool × List (String × Nat) :=
  let (texts, htu, hth, counts) := acc
  match item with
  | .text s => (texts ++ [s], htu, hth, counts)
  | .toolUse name _ =>
    (texts, true, hth, if name = "" then counts else bumpCount counts name)
  | .thinking => (texts, htu, true, counts)
  | _ => acc

def extract_text_content : Content → String × Bool × Bool × Option (List (String × Nat))
  | .str s =>
    let t := stripSpans "command-name" s
    let t := stripSpans "command-message" t
    let t := stripSpans "command-args" t
    let t := stripSpans "local-command-stdout" t
    (pyStrip t, false, false, none)
  | .items l =>
    let r := l.foldl extractItemStep ([], false, false, [])
    (pyStrip (joinNL r.1), r.2.1, r.2.2.1, if r.2.2.2 = [] then none else some r.2.2.2)
  | .otherVal => ("", false, false, none)

/-- `extract_files_modified`: file paths of Edit/Write/MultiEdit tool uses. -/
def extract_files_modified : Content → List String
  | .items l =>
    l.filterMap fun item =>
      match item with
      | .toolUse name input =>
        if (name = "Edit" ∨ name = "Write" ∨ name = "MultiEdit") then
          input.lookup "file_path"
        else none
      | _ => none
  | _ => []

/-- Whitespace class of the regex `\s` over the strings we model. -/
def isReWs (c : Char) : Bool :=
  c = ' ' ∨ c = '\t' ∨ c = '\n' ∨ c = '\r' ∨ c = '\x0b' ∨ c = '\x0c'

/-- Try to match the regex `-m\s+["']([^"']+)["']` at the head of the list,
returning the captured group. -/
def commitMatchAt : List Char → Option (List Char)
  | '-' :: 'm' :: c :: rest =>
    if isReWs c then
      match rest.dropWhile isReWs with
      | q :: rest2 =>
        if q = '"' ∨ q = '\x27' then
          let body := rest2.takeWhile fun d => ¬ (d = '"' ∨ d = '\x27')
          let rest3 := rest2.dropWhile fun d => ¬ (d = '"' ∨ d = '\x27')
          match rest3 with
          | q2 :: _ =>
            if (q2 = '"' ∨ q2 = '\x27') ∧ body ≠ [] then some body else none
          | [] => none
        else none
      | [] => none
    else none
  | _ => none

/-- `re.search` for the commit-message pattern: first match wins. -/
def commitSearch : List Char → Option (List Char)
  | [] => none
  | c :: cs =>
    match commitMatchAt (c :: cs) with
    | some g => some g
    | none => commitSearch cs

/-- Python `needle in haystack` on strings. -/
def strContainsSub (haystack needle : String) : Bool :=
  (splitFirstSub needle.toList haystack.toList).isSome

/-- `extract_commits`: commit subjects of `git commit` Bash tool uses,
truncated to 100 characters. -/
def extract_commits : Content → List String
  | .items l =>
    l.filterMap fun item =>
      match item with
      | .toolUse name input =>
        if name = "Bash" then
          let cmd := (input.lookup "command").getD ""
          if strContainsSub cmd "git commit" then
            match commitSearch cmd.toList with
            | some g => some (String.mk (g.take 100))
            | none => none
          else none
        else none
      | _ => none
  | _ => []

/-- `memory_utils.parse_jsonl_file`: the message stream — records that are
not meta and whose type is user or assistant. -/
def parse_jsonl_file (file : List Line) : List Entry :=
  file.filterMap fun l =>
    match l with
    | .record e =>
      if e.isMeta then none
      else if e.type? = some "user" ∨ e.type? = some "assistant" then some e
      else none
    | _ => none

/-- `parse_all_with_uuids`: the graph stream — every decoded record whose
`uuid` is truthy, regardless of its type or meta flag. -/
def parse_all_with_uuids (file : List Line) : List Entry :=
  file.filterMap fun l =>
    match l with
    | .record e => if (truthyStr e.uuid?).isSome then some e else none
    | _ => none

/-- Session-level metadata folded over the entries: earliest/latest truthy
timestamp (string comparison), first truthy git branch and cwd. -/
structure SessionMeta where
  started_at : Option String := none
  ended_at : Option String := none
  git_branch : Option String := none
  cwd : Option String := none
deriving DecidableEq, Repr

/-- `extract_session_metadata`.  The git-branch/cwd slots are overwritten by
the raw field value whenever the current slot is falsy, exactly as the
source's `if not metadata[...]` guard does. -/
def extract_session_metadata (entries : List Entry) : SessionMeta :=
  entries.foldl (fun md e =>
    let md :=
      match truthyStr e.timestamp? with
      | none => md
      | some ts =>
        let s := match md.started_at with
          | none => some ts
          | some cur => if pyStrLt ts cur then some ts else some cur
        let en := match md.ended_at with
          | none => some ts
          | some cur => if pyStrLt cur ts then some ts else some cur
        { md with started_at := s, ended_at := en }
    let md := if (truthyStr md.git_branch).isSome then md
              else { md with git_branch := e.gitBranch? }
    if (truthyStr md.cwd).isSome then md else { md with cwd := e.cwd? })
    {}

/-- The entries whose `uuid` is truthy (the guard at the top of the map
building loop of `find_all_branches`). -/
def entriesWithUuid (all_entries : List Entry) : List Entry :=
  all_entries.filter fun e => (truthyStr e.uuid?).isSome

/-- The `uuid_to_entry` dict: dict assignment means the last entry with a
given uuid wins. -/
def uuidToEntry (all_entries : List Entry) (u : String) : Option Entry :=
  ((entriesWithUuid all_entries).filter fun e => truthyStr e.uuid? = some u).getLast?

/-- The `uuid_to_parent` dict composed with the truthiness test of the
walk loops (`while current:` stops on `None` and on `""` alike). -/
def uuidToParent (all_entries : List Entry) (u : String) : Option String :=
  (uuidToEntry all_entries u).bind fun e => truthyStr e.parentUuid?

/-- The `children` dict: uuids of entries whose (truthy) parent is `p`, in
entry order, as built by `children.setdefault(parent, []).append(uuid)`. -/
def childrenOf (all_entries : List Entry) (p : String) : List String :=
  (entriesWithUuid all_entries).filterMap fun e =>
    match truthyStr e.parentUuid? with
    | some pp => if pp = p then truthyStr e.uuid? else none
    | none => none

/-- Keys of `uuid_to_entry` in dict order: first occurrence of each uuid. -/
def uuidKeys (all_entries : List Entry) : List String :=
  ((entriesWithUuid all_entries).filterMap fun e => truthyStr e.uuid?).eraseDups

/-- The sort key `e.get("timestamp") or ""`. -/
def tsKey (e : Entry) : String := e.timestamp?.getD ""

/-- Python `max(..., key=tsKey)`: the first element with maximal key. -/
def maxByTs : List Entry → Option Entry
  | [] => none
  | e :: es => some (es.foldl (fun best x => if pyStrLt (tsKey best) (tsKey x) then x else best) e)

/-- The parent-pointer walk `while current: collect; current = parent[current]`.
Fuel `all_entries.length + 1` is exact on every input on which the source
loop terminates (a repeated uuid on the chain loops forever in the source). -/
def walkUp (all_entries : List Entry) : Nat → Option String → List String
  | _, none => []
  | 0, some _ => []
  | fuel + 1, some u => u :: walkUp all_entries fuel (uuidToParent all_entries u)

/-- The explicit-stack subtree collection of `collect_subtree`.  The model
adds a seen-check so that finite fuel is exact; the resulting uuid list is
the first-visit DFS order (the source builds the same uuids as a Python set,
whose iteration order is unspecified). -/
def collectSubtreeGo (all_entries : List Entry) : Nat → List String → List String → List String
  | 0, _, acc => acc.reverse
  | _ + 1, [], acc => acc.reverse
  | fuel + 1, n :: stack, acc =>
    if n ∈ acc then collectSubtreeGo all_entries fuel stack acc
    else collectSubtreeGo all_entries fuel (childrenOf all_entries n ++ stack) (n :: acc)

/-- `collect_subtree(kid)`: every uuid reachable from `k` along child
pointers, `k` included. -/
def collectSubtree (all_entries : List Entry) (k : String) : List String :=
  collectSubtreeGo all_entries ((all_entries.length + 1) * (all_entries.length + 1)) [k] []

/-- `has_user_descendant` with its depth cap: depths 0 through 100 are
explored, a call at depth 101 returns False, so the initial fuel is 101. -/
def hasUserDescendant (all_entries : List Entry) : Nat → String → Bool
  | 0, _ => false
  | fuel + 1, u =>
    (match uuidToEntry all_entries u with
     | some e => e.type? == some "user"
     | none => false) ||
    (childrenOf all_entries u).any fun k => hasUserDescendant all_entries fuel k

/-- One detected branch, as the dicts returned by `find_all_branches`.  The
`uuids` list carries the branch's uuid set (a Python set in the source);
only its membership is meaningful. -/
structure BranchInfo where
  leaf_uuid : String
  uuids : List String
  is_active : Bool
  fork_point_uuid : Option String
deriving DecidableEq, Repr

/-- `ancestors(u)`: the shared prefix from the fork point back to the root,
`u` included (the inner while loop of the rewind-fork step). -/
def ancestorsOf (all_entries : List Entry) (u : String) : List String :=
  walkUp all_entries (all_entries.length + 1) (some u)

/-- The abandoned branches hanging off one node `u` of the active path:
each non-active child `k` with a user descendant yields a branch whose uuid
set is the prefix from `u` to the root united with the subtree of `k`. -/
def abandonedAt (all_entries : List Entry) (activeList : List String) (u : String) :
    List BranchInfo :=
  let kids := childrenOf all_entries u
  if kids.length ≤ 1 then []
  else kids.filterMap fun k =>
    if k ∈ activeList then none
    else if ¬ hasUserDescendant all_entries 101 k then none
    else
      let pref := ancestorsOf all_entries u
      let subt := collectSubtree all_entries k
      match maxByTs (subt.filterMap (uuidToEntry all_entries)) with
      | none => none
      | some leafE => some {
          leaf_uuid := (truthyStr leafE.uuid?).getD "",
          uuids := pref ++ subt,
          is_active := false,
          fork_point_uuid := some u }

/-- `max(uuid_to_entry.values(), key=timestamp)`: the latest record, ties
broken towards the first value in dict order. -/
def latestEntry (all_entries : List Entry) : Option Entry :=
  maxByTs ((uuidKeys all_entries).filterMap (uuidToEntry all_entries))

/-- The active path: uuids collected by walking parent pointers up from the
latest record (step 1 of `find_all_branches`). -/
def activePathOf (all_entries : List Entry) : List String :=
  match latestEntry all_entries with
  | none => []
  | some latest =>
    walkUp all_entries (all_entries.length + 1) (some ((truthyStr latest.uuid?).getD ""))

/-- `find_all_branches`.  The model iterates the active uuids in walk order
(leaf to root); the source iterates the same uuids as a Python set in
unspecified order, so the set of emitted abandoned branches is identical. -/
def find_all_branches (all_entries : List Entry) : List BranchInfo :=
  match latestEntry all_entries with
  | none => []
  | some latest =>
    let activeList := activePathOf all_entries
    { leaf_uuid := (truthyStr latest.uuid?).getD "", uuids := activeList,
      is_active := true, fork_point_uuid := none }
      :: activeList.flatMap (abandonedAt all_entries activeList)

/-- First-occurrence-preserving deduplication, as building a Python dict
keyed by the elements does. -/
def dedupFirst (l : List String) : List String :=
  l.foldl (fun acc f => if f ∈ acc then acc else acc ++ [f]) []

/-- One iteration of the `compute_branch_metadata` pass; the accumulator is
`(exchange_count, all_files, all_commits, has_user)`. -/
def cbmStep (acc : Nat × List String × List String × Bool) (e : Entry) :
    Nat × List String × List String × Bool :=
  let (xc, fs, cs, hu) := acc
  if ¬ (e.type? = some "user" ∨ e.type? = some "assistant") then acc
  else if e.type? = some "user" ∧ is_tool_result e.content then acc
  else
    let (xc, hu) :=
      if e.type? = some "user" then (if hu then xc + 1 else xc, true) else (xc, hu)
    let (fs, cs) :=
      if e.type? = some "assistant" then
        (fs ++ extract_files_modified e.content, cs ++ extract_commits e.content)
      else (fs, cs)
    (xc, fs, cs, hu)

/-- `compute_branch_metadata`: one pass computing
`(exchange_count, files_modified, commits)`. -/
def compute_branch_metadata (entries : List Entry) : Nat × List String × List String :=
  let r := entries.foldl cbmStep (0, [], [], false)
  (if r.2.2.2 then r.1 + 1 else r.1, dedupFirst r.2.1, r.2.2.1)

end memory_utils

/-! ## The SQLite store

The two writers declare different schemas: the sync path (memory_utils
SCHEMA, v3) has branches, branch_messages and a `UNIQUE(session_id, uuid)`
messages constraint; the bulk path (import_conversations SCHEMA) has neither
branch table and keeps per-session aggregates on the sessions rows.  The
model is the column-wise union of the two schemas; each writer touches only
the tables and columns its own SQL names. -/

structure ProjectRow where
  id : Nat
  path : String
  key : String
  name : String
deriving DecidableEq, Repr

structure SessionRow where
  id : Nat
  uuid : String
  project_id : Nat
  parent_session_id : Option Nat := none
  git_branch : Option String := none
  cwd : Option String := none
  started_at : Option String := none
  ended_at : Option String := none
  message_count : Nat := 0
  exchange_count : Nat := 0
  files_modified : Option (List String) := none
  commits : Option (List String) := none
deriving DecidableEq, Repr

structure MessageRow where
  id : Nat
  session_id : Nat
  uuid : Option String := none
  parent_uuid : Option String := none
  timestamp : Option String := none
  role : String
  content : String
  tool_summary : Option (List (String × Nat)) := none
  has_tool_use : Bool := false
  has_thinking : Bool := false
deriving DecidableEq, Repr

structure BranchRow where
  id : Nat
  session_id : Nat
  leaf_uuid : String
  fork_point_uuid : Option String := none
  is_active : Bool := true
  started_at : Option String := none
  ended_at : Option String := none
  exchange_count : Nat := 0
  files_modified : Option (List String) := none
  commits : Option (List String) := none
deriving DecidableEq, Repr

structure ImportLogRow where
  file_path : String
  file_hash : String
  messages_imported : Nat
deriving DecidableEq, Repr

structure DB where
  projects : List ProjectRow := []
  sessions : List SessionRow := []
  messages : List MessageRow := []
  branches : List BranchRow := []
  branch_messages : List (Nat × Nat) := []
  import_log : List ImportLogRow := []
deriving DecidableEq, Repr

def emptyDB : DB := {}

/-- SQLite rowid allocation for INTEGER PRIMARY KEY: one more than the
largest rowid in the table. -/
def nextRowId (ids : List Nat) : Nat := ids.foldl max 0 + 1

/-- One executed SQL write statement together with the number of rows it
affected (`cursor.rowcount`). -/
inductive WriteOp where
  | insertRow (table : String)
  | deleteRows (table : String) (count : Nat)
  | updateRows (table : String) (count : Nat)
deriving DecidableEq, Repr

/-- The number of rows an executed write statement touched. -/
def WriteOp.rows : WriteOp → Nat
  | .insertRow _ => 1
  | .deleteRows _ c => c
  | .updateRows _ c => c

/-- SQL `COALESCE` over two nullable strings (the empty string is not NULL). -/
def sqlCoalesce (a b : Option String) : Option String :=
  match a with
  | some v => some v
  | none => b

/-- Stable insertion into a sorted list: an element goes before the first
element it compares `le` to, so equal keys keep their original order. -/
def insertBy (le : α → α → Bool) (x : α) : List α → List α
  | [] => [x]
  | y :: ys => if le x y then x :: y :: ys else y :: insertBy le x ys

/-- Stable sort (Python `list.sort` / SQL ORDER BY with a deterministic
tie-break). -/
def sortBy (le : α → α → Bool) (l : List α) : List α := l.foldr (insertBy le) []

/-- Strict order on nullable sort keys with SQL semantics: NULL is smaller
than every string. -/
def optStrLt : Option String → Option String → Bool
  | none, none => false
  | none, some _ => true
  | some _, none => false
  | some a, some b => pyStrLt a b

/-- Last value for a key in an insertion-ordered association list (a later
Python dict assignment overwrites an earlier one). -/
def lookupLastPair (l : List (String × Nat)) (k : String) : Option Nat :=
  ((l.filter fun p => p.1 = k).map (·.2)).getLast?

namespace sync_current
open memory_utils

/-- A session log file as the sync driver sees it: the filename stem and the
decoded lines. -/
structure SyncFile where
  stem : String
  lines : List Line
deriving DecidableEq, Repr

/-- `project_key.replace("-", "/").lstrip("/")` prefixed with `/`. -/
def decodeProjectPath (key : String) : String :=
  "/" ++ String.mk ((key.toList.map fun c => if c = '-' then '/' else c).dropWhile (· = '/'))

/-- Split a string on a separator character. -/
def splitOnCharGo (c : Char) : List Char → List Char → List (List Char)
  | [], cur => [cur.reverse]
  | d :: ds, cur =>
    if d = c then cur.reverse :: splitOnCharGo c ds []
    else splitOnCharGo c ds (d :: cur)

/-- `Path(path).name`: the last nonempty `/`-separated component. -/
def pathName (path : String) : String :=
  ((((splitOnCharGo '/' path.toList []).map String.mk).filter fun s => s ≠ "").getLast?).getD ""

/-- The session uuid is the file stem, with a leading `agent-` stripped. -/
def sessionUuidOfStem (stem : String) : String :=
  if "agent-".toList.isPrefixOf stem.toList then String.mk (stem.toList.drop 6) else stem


/-- The message-insert loop of `sync_session` step 2: one message row per
user/assistant record with nonempty extracted text that is not a tool-result
user record, deduplicated against `(session_id, uuid)`.  Returns the updated
store, the updated `existing_uuids`, the number of newly inserted rows and
the executed writes. -/
def insertMessagesGo (sid : Nat) :
    List Entry → DB → List String → Nat → List WriteOp →
    DB × List String × Nat × List WriteOp
  | [], db, ex, cnt, ops => (db, ex, cnt, ops)
  | e :: rest, db, ex, cnt, ops =>
    if ¬ (e.type? = some "user" ∨ e.type? = some "assistant") then
      insertMessagesGo sid rest db ex cnt ops
    else if e.type? = some "user" ∧ is_tool_result e.content then
      insertMessagesGo sid rest db ex cnt ops
    else
      let r := extract_text_content e.content
      if r.1 = "" then insertMessagesGo sid rest db ex cnt ops
      else
        let skipPy := match truthyStr e.uuid? with
          | some u => ex.contains u
          | none => false
        if skipPy then insertMessagesGo sid rest db ex cnt ops
        else
          let conflict := match e.uuid? with
            | some v => db.messages.any fun m => m.session_id = sid ∧ m.uuid = some v
            | none => false
          if conflict then insertMessagesGo sid rest db ex cnt ops
          else
            let row : MessageRow :=
              { id := nextRowId (db.messages.map (·.id)), session_id := sid,
                uuid := e.uuid?, parent_uuid := e.parentUuid?,
                timestamp := e.timestamp?, role := (e.type?).getD "",
                content := r.1, tool_summary := r.2.2.2,
                has_tool_use := r.2.1, has_thinking := r.2.2.1 }
            let ex := match truthyStr e.uuid? with
              | some u => ex ++ [u]
              | none => ex
            insertMessagesGo sid rest { db with messages := db.messages ++ [row] }
              ex (cnt + 1) (ops ++ [.insertRow "messages"])

/-- The `uuid → message row id` map of step 3 (rows of this session with a
non-NULL uuid; a later row overwrites an earlier one in the Python dict). -/
def uuidMsgId (db : DB) (sid : Nat) (u : String) : Option Nat :=
  (((db.messages.filter fun m => m.session_id = sid ∧ m.uuid = some u).map (·.id))).getLast?

/-- One iteration of the branch-membership rebuild: `INSERT OR IGNORE` of
`(branch_id, message_id)` for one uuid of the branch (`if msg_id:` is int
truthiness; rowids are always positive, so `isSome` is faithful). -/
def bmInsertStep (bid : Nat) (msgIdOf : String → Option Nat)
    (acc : DB × List WriteOp) (u : String) : DB × List WriteOp :=
  match msgIdOf u with
  | some mid =>
    if (bid, mid) ∈ acc.1.branch_messages then acc
    else ({ acc.1 with branch_messages := acc.1.branch_messages ++ [(bid, mid)] },
          acc.2 ++ [.insertRow "branch_messages"])
  | none => acc

/-- The update-or-insert of one detected branch's row (first half of the
step 4 body). -/
def upsertBranchRow (sid : Nat) (existingBranches : List (String × Nat))
    (br : BranchInfo) (bmMeta : SessionMeta) (xc : Nat) (files commits : List String)
    (db : DB) : DB × Nat × Bool :=
  match lookupLastPair existingBranches br.leaf_uuid with
  | some bid =>
    (({ db with branches := db.branches.map fun b =>
        if b.id = bid then
          { b with
            is_active := br.is_active
            fork_point_uuid := br.fork_point_uuid
            started_at := bmMeta.started_at
            ended_at := bmMeta.ended_at
            exchange_count := xc
            files_modified := (if files = [] then none else some files)
            commits := (if commits = [] then none else some commits) }
        else b } : DB), bid, true)
  | none =>
    let bid := nextRowId (db.branches.map (·.id))
    (({ db with branches := db.branches ++ [{
        id := bid, session_id := sid, leaf_uuid := br.leaf_uuid,
        fork_point_uuid := br.fork_point_uuid, is_active := br.is_active,
        started_at := bmMeta.started_at, ended_at := bmMeta.ended_at,
        exchange_count := xc,
        files_modified := (if files = [] then none else some files),
        commits := (if commits = [] then none else some commits) }] } : DB), bid,
      false)

/-- The branch's own message list: the parsed messages filtered to the
branch's uuid set and sorted by timestamp (the two lines above the metadata
computation in the step 4 body). -/
def branchMsgsOf (msgs : List Entry) (br : BranchInfo) : List Entry :=
  sortBy (fun a b => ¬ pyStrLt (tsKey b) (tsKey a))
    (msgs.filter fun m => match m.uuid? with
      | some v => v ∈ br.uuids
      | none => false)

/-- Step 4 body for one detected branch: update or insert the branch row,
force every other branch of the session inactive when this one is active,
and rebuild its branch-membership rows. -/
def processBranch (sid : Nat) (existingBranches : List (String × Nat))
    (msgs : List Entry) (msgIdOf : String → Option Nat)
    (acc : DB × List String × List WriteOp) (br : BranchInfo) :
    DB × List String × List WriteOp :=
  let db0 := acc.1
  let leaves := acc.2.1 ++ [br.leaf_uuid]
  let ops0 := acc.2.2
  let branch_msgs := branchMsgsOf msgs br
  let bmMeta := extract_session_metadata branch_msgs
  let md := compute_branch_metadata branch_msgs
  let up := upsertBranchRow sid existingBranches br bmMeta md.1 md.2.1 md.2.2 db0
  let db1 := up.1
  let bid := up.2.1
  let ops1 := ops0 ++ [if up.2.2 then
      .updateRows "branches" ((db0.branches.filter fun b => b.id = bid).length)
    else .insertRow "branches"]
  let db2 : DB :=
    if br.is_active then
      { db1 with branches := db1.branches.map fun b =>
          if b.session_id = sid ∧ b.id ≠ bid ∧ b.is_active then
            { b with is_active := false }
          else b }
    else db1
  let ops2 :=
    if br.is_active then
      ops1 ++ [.updateRows "branches" ((db1.branches.filter fun b =>
        b.session_id = sid ∧ b.id ≠ bid ∧ b.is_active).length)]
    else ops1
  let delCount := (db2.branch_messages.filter fun p => p.1 = bid).length
  let db3 : DB := { db2 with branch_messages := db2.branch_messages.filter fun p => p.1 ≠ bid }
  let ops3 := ops2 ++ [.deleteRows "branch_messages" delCount]
  let fin := br.uuids.foldl (bmInsertStep bid msgIdOf) (db3, ops3)
  (fin.1, leaves, fin.2)

/-- One step of the stale-branch cleanup (step 5). -/
def staleStep (leaves : List String) (acc : DB × List WriteOp)
    (p : String × Nat) : DB × List WriteOp :=
  if p.1 ∈ leaves then acc
  else
    let c1 := (acc.1.branch_messages.filter fun q => q.1 = p.2).length
    let db : DB := { acc.1 with
      branch_messages := acc.1.branch_messages.filter fun q => q.1 ≠ p.2 }
    let c2 := (db.branches.filter fun b => b.id = p.2).length
    let db2 : DB := { db with branches := db.branches.filter fun b => b.id ≠ p.2 }
    (db2, acc.2 ++ [.deleteRows "branch_messages" c1, .deleteRows "branches" c2])

/-- Step 5: delete branch-membership rows and then the branch row of every
pre-existing branch whose leaf uuid is no longer detected. -/
def staleBranchCleanup (existingBranches : List (String × Nat))
    (leaves : List String) (acc : DB × List WriteOp) : DB × List WriteOp :=
  existingBranches.foldl (staleStep leaves) acc

/-- A message row of the session is referenced when some branch-membership
row of some branch of the session points at it (the NOT IN subquery of the
orphan cleanup). -/
def referencedInSession (db : DB) (sid : Nat) (m : MessageRow) : Bool :=
  db.branch_messages.any fun p =>
    p.2 = m.id ∧ db.branches.any fun b => b.id = p.1 ∧ b.session_id = sid

/-- The project upsert at the top of `sync_session`. -/
def projectPhase (db : DB) (projectDirName : String) : DB × List WriteOp :=
  let project_path := decodeProjectPath projectDirName
  let project_name := pathName project_path
  if db.projects.any fun p => p.path = project_path then (db, [])
  else ({ db with projects := db.projects ++ [{
      id := nextRowId (db.projects.map (·.id)), path := project_path,
      key := projectDirName, name := project_name }] }, [.insertRow "projects"])

/-- The session upsert (step 1): coalescing update on conflict, plain
insert otherwise; returns the session row id. -/
def sessionUpsert (db : DB) (session_uuid : String) (project_id : Nat)
    (meta : SessionMeta) : DB × Nat × WriteOp :=
  match db.sessions.find? fun s => s.uuid = session_uuid with
  | some s0 =>
    (({ db with sessions := db.sessions.map fun s =>
        if s.uuid = session_uuid then
          { s with
            git_branch := sqlCoalesce meta.git_branch s.git_branch
            cwd := sqlCoalesce meta.cwd s.cwd }
        else s } : DB), s0.id, .updateRows "sessions" 1)
  | none =>
    let sid := nextRowId (db.sessions.map (·.id))
    (({ db with sessions := db.sessions ++ [{
        id := sid, uuid := session_uuid, project_id := project_id,
        git_branch := meta.git_branch, cwd := meta.cwd }] } : DB), sid,
      .insertRow "sessions")

/-- `sync_session`: returns the store after the call, the number of new
messages (the function's return value) and the executed writes. -/
def sync_session (db : DB) (file : SyncFile) (projectDirName : String) :
    DB × Nat × List WriteOp :=
  let pp := projectPhase db projectDirName
  let db := pp.1
  let ops := pp.2
  let project_id := ((db.projects.find? fun p =>
    p.path = decodeProjectPath projectDirName).map (·.id)).getD 0
  let session_uuid := sessionUuidOfStem file.stem
  let all_entries := parse_all_with_uuids file.lines
  if all_entries = [] then (db, 0, ops)
  else
    let branches := find_all_branches all_entries
    if branches = [] then (db, 0, ops)
    else
      let messages := parse_jsonl_file file.lines
      if messages = [] then (db, 0, ops)
      else
        let meta := extract_session_metadata all_entries
        let su := sessionUpsert db session_uuid project_id meta
        let db := su.1
        let sid := su.2.1
        let ops := ops ++ [su.2.2]
        let existing0 := (db.messages.filter fun m =>
          m.session_id = sid ∧ m.uuid.isSome).filterMap (·.uuid)
        let ins := insertMessagesGo sid messages db existing0 0 ops
        let db := ins.1
        let new_count := ins.2.2.1
        let ops := ins.2.2.2
        let msgIdOf := uuidMsgId db sid
        let existingBranches := (db.branches.filter fun b => b.session_id = sid).map
          fun b => (b.leaf_uuid, b.id)
        let bl := branches.foldl
          (processBranch sid existingBranches messages msgIdOf) (db, [], ops)
        let sc := staleBranchCleanup existingBranches bl.2.1 (bl.1, bl.2.2)
        let db2 := sc.1
        let delCount := (db2.messages.filter fun m =>
          m.session_id = sid ∧ ¬ referencedInSession db2 sid m).length
        let dbFin : DB := { db2 with messages := db2.messages.filter fun m =>
          ¬ (m.session_id = sid ∧ ¬ referencedInSession db2 sid m) }
        (dbFin, new_count, sc.2 ++ [.deleteRows "messages" delCount])

end sync_current

namespace import_conversations

/-- `import_conversations.extract_text_content`: unlike the memory_utils
variant, a named `tool_use` item appends a `[Tool: name]` marker to the
collected text. -/
def extract_text_content : Content → String × Bool × Bool
  | .str s =>
    let t := stripSpans "command-name" s
    let t := stripSpans "command-message" t
    let t := stripSpans "command-args" t
    let t := stripSpans "local-command-stdout" t
    (pyStrip t, false, false)
  | .items l =>
    let step := fun (acc : List String × Bool × Bool) (item : ContentItem) =>
      let (texts, htu, hth) := acc
      match item with
      | .text s => (texts ++ [s], htu, hth)
      | .toolUse name _ =>
        (if name = "" then texts else texts ++ ["[Tool: " ++ name ++ "]"], true, hth)
      | .thinking => (texts, htu, true)
      | _ => acc
    let (texts, htu, hth) := l.foldl step ([], false, false)
    (pyStrip (joinNL texts), htu, hth)
  | .otherVal => ("", false, false)

/-- `import_conversations.is_tool_result` (textually identical to the
memory_utils copy). -/
def is_tool_result : Content → Bool := memory_utils.is_tool_result

/-- `import_conversations.extract_files_modified` (identical copy). -/
def extract_files_modified : Content → List String := memory_utils.extract_files_modified

/-- `import_conversations.extract_commits` (identical copy). -/
def extract_commits : Content → List String := memory_utils.extract_commits

/-- `import_conversations.parse_jsonl_file`: drops the noise record types
and meta records, then yields user/assistant records. -/
def parse_jsonl_file (file : List Line) : List Entry :=
  file.filterMap fun l =>
    match l with
    | .record e =>
      if e.type? = some "progress" ∨ e.type? = some "file-history-snapshot" ∨
          e.type? = some "queue-operation" then none
      else if e.isMeta then none
      else if e.type? = some "user" ∨ e.type? = some "assistant" then some e
      else none
    | _ => none

/-- A session log file as the bulk importer sees it: path, filename stem,
MD5 content hash (opaque here) and the decoded lines. -/
structure BulkFile where
  path : String
  stem : String
  hash : String
  lines : List Line
deriving DecidableEq, Repr

/-- The return value of `import_session`: `skipped` models the `(-1, 0)`
sentinel. -/
inductive ImportResult where
  | skipped
  | imported (session_id : Nat) (message_count : Nat)
deriving DecidableEq, Repr

/-- State threaded through the bulk message-insert loop. -/
structure BulkLoopState where
  db : DB
  message_count : Nat := 0
  exchange_count : Nat := 0
  all_files : List String := []
  all_commits : List String := []
  has_user : Bool := false
  ops : List WriteOp := []
deriving Repr

/-- One iteration of the bulk insert-and-collect loop. -/
def bulkStep (sid : Nat) (st : BulkLoopState) (e : Entry) : BulkLoopState :=
  if ¬ (e.type? = some "user" ∨ e.type? = some "assistant") then st
  else if e.type? = some "user" ∧ is_tool_result e.content then st
  else
    let r := extract_text_content e.content
    if r.1 = "" then st
    else
      let row : MessageRow :=
        { id := nextRowId (st.db.messages.map (·.id)), session_id := sid,
          uuid := e.uuid?, parent_uuid := e.parentUuid?,
          timestamp := e.timestamp?, role := (e.type?).getD "",
          content := r.1, tool_summary := none,
          has_tool_use := r.2.1, has_thinking := r.2.2 }
        let st := { st with
          db := { st.db with messages := st.db.messages ++ [row] }
          message_count := st.message_count + 1
          ops := st.ops ++ [.insertRow "messages"] }
        let st :=
          if e.type? = some "user" then
            { st with
              exchange_count := if st.has_user then st.exchange_count + 1 else st.exchange_count
              has_user := true }
          else st
        if e.type? = some "assistant" then
          { st with
            all_files := st.all_files ++ extract_files_modified e.content
            all_commits := st.all_commits ++ extract_commits e.content }
        else st

/-- The change-detection test: the import log has a row for this path whose
stored hash equals the file's current hash. -/
def bulkSkipsByHash (db : DB) (f : BulkFile) : Bool :=
  match db.import_log.find? fun r => r.file_path = f.path with
  | some r => r.file_hash == f.hash
  | none => false

/-- `import_session`: change detection against the import log, session
upsert, delete-then-reinsert of the session's messages, session aggregate
update and import-log upsert.  The bulk schema has no branch tables, so no
branch or branch-membership row is ever touched. -/
def import_session (db : DB) (f : BulkFile) (project_id : Nat)
    (parent_session_id : Option Nat) : DB × ImportResult × List WriteOp :=
  let logRow := db.import_log.find? fun r => r.file_path = f.path
  if bulkSkipsByHash db f then (db, .skipped, [])
  else
    let entries := parse_jsonl_file f.lines
    if entries = [] then (db, .skipped, [])
    else
      let session_uuid := sync_current.sessionUuidOfStem f.stem
      let metadata := memory_utils.extract_session_metadata entries
      let (db, sid, ops) : DB × Nat × List WriteOp :=
        match db.sessions.find? fun s => s.uuid = session_uuid with
        | some s0 =>
          (({ db with sessions := db.sessions.map fun s =>
              if s.uuid = session_uuid then
                { s with
                  started_at := metadata.started_at
                  ended_at := metadata.ended_at
                  git_branch := metadata.git_branch
                  cwd := metadata.cwd }
              else s } : DB), s0.id, [.updateRows "sessions" 1])
        | none =>
          let sid := nextRowId (db.sessions.map (·.id))
          (({ db with sessions := db.sessions ++ [{
              id := sid, uuid := session_uuid, project_id := project_id,
              parent_session_id := parent_session_id,
              git_branch := metadata.git_branch, cwd := metadata.cwd,
              started_at := metadata.started_at,
              ended_at := metadata.ended_at }] } : DB), sid, [.insertRow "sessions"])
      let delCount := (db.messages.filter fun m => m.session_id = sid).length
      let db : DB := { db with messages := db.messages.filter fun m => m.session_id ≠ sid }
      let ops := ops ++ [.deleteRows "messages" delCount]
      let st := entries.foldl (bulkStep sid) { db := db, ops := ops }
      let db := st.db
      let message_count := st.message_count
      let exchange_count := if st.has_user then st.exchange_count + 1 else st.exchange_count
      let unique_files := memory_utils.dedupFirst st.all_files
      let db : DB := { db with sessions := db.sessions.map fun s =>
        if s.id = sid then
          { s with
            message_count := message_count
            exchange_count := exchange_count
            files_modified := (if unique_files = [] then none else some unique_files)
            commits := (if st.all_commits = [] then none else some st.all_commits) }
        else s }
      let ops := st.ops ++ [.updateRows "sessions" 1]
      let (db, ops) : DB × List WriteOp :=
        match logRow with
        | some _ =>
          (({ db with import_log := db.import_log.map fun r =>
              if r.file_path = f.path then
                { r with
                  file_hash := f.hash
                  messages_imported := message_count }
              else r } : DB), ops ++ [.updateRows "import_log" 1])
        | none =>
          (({ db with import_log := db.import_log ++ [{
              file_path := f.path, file_hash := f.hash,
              messages_imported := message_count }] } : DB),
            ops ++ [.insertRow "import_log"])
      (db, .imported sid message_count, ops)

end import_conversations

namespace memory_context

/-- One candidate row of the `sessions JOIN branches` query of
`select_sessions`. -/
structure CandRow where
  session_row_id : Nat
  uuid : String
  started_at : Option String
  ended_at : Option String
  exchange_count : Nat
  files_modified : Option (List String)
  commits : Option (List String)
  git_branch : Option String
  branch_db_id : Nat
deriving DecidableEq, Repr

/-- The candidate query: active branches joined to their sessions for the
project, excluding the current session and sub-agent sessions, ordered by
branch end time descending (SQL NULLs sort last under DESC) and limited to
20 rows.  SQLite leaves the tie order unspecified; the model keeps the
stable join order. -/
def candidateRows (db : DB) (project_id : Nat) (current : String) : List CandRow :=
  let rows := db.sessions.flatMap fun s =>
    if s.project_id = project_id ∧ s.uuid ≠ current ∧ s.parent_session_id = none then
      (db.branches.filter fun b => b.session_id = s.id ∧ b.is_active).map fun b =>
        { session_row_id := s.id, uuid := s.uuid, started_at := b.started_at,
          ended_at := b.ended_at, exchange_count := b.exchange_count,
          files_modified := b.files_modified, commits := b.commits,
          git_branch := s.git_branch, branch_db_id := b.id }
    else []
  (sortBy (fun a b => ¬ optStrLt a.ended_at b.ended_at) rows).take 20

/-- One session as assembled by `select_sessions` for the context builder:
messages are `(role, content, timestamp)` triples. -/
structure SelectedSession where
  uuid : String
  started_at : Option String
  ended_at : Option String
  exchange_count : Nat
  files_modified : List String
  commits : List String
  git_branch : Option String
  messages : List (String × String × Option String)
deriving DecidableEq, Repr

/-- The per-branch message query: membership rows joined to messages,
ordered by timestamp ascending (SQL NULLs first). -/
def branchMessages (db : DB) (bid : Nat) : List (String × String × Option String) :=
  sortBy (fun a b => ¬ optStrLt b.2.2 a.2.2)
    ((db.branch_messages.filter fun p => p.1 = bid).filterMap fun p =>
      (db.messages.find? fun m => m.id = p.2).map fun m => (m.role, m.content, m.timestamp))

/-- Assemble the session dict for one selected candidate. -/
def buildSessionData (db : DB) (c : CandRow) : SelectedSession :=
  { uuid := c.uuid, started_at := c.started_at, ended_at := c.ended_at,
    exchange_count := c.exchange_count,
    files_modified := c.files_modified.getD [],
    commits := c.commits.getD [],
    git_branch := c.git_branch,
    messages := branchMessages db c.branch_db_id }

/-- The selection walk: skip exchange_count ≤ 1; on exchange_count = 2 keep
the session and continue unless `max_sessions` is reached; otherwise
(exchange_count > 2) keep the session and stop. -/
def selectLoop (db : DB) (maxSessions : Nat) :
    List CandRow → List SelectedSession → List SelectedSession
  | [], selected => selected
  | c :: rest, selected =>
    if c.exchange_count ≤ 1 then selectLoop db maxSessions rest selected
    else
      let sd := buildSessionData db c
      if c.exchange_count = 2 then
        let selected := selected ++ [sd]
        if maxSessions ≤ selected.length then selected
        else selectLoop db maxSessions rest selected
      else selected ++ [sd]

/-- `select_sessions`: project lookup by key, candidate query, selection
walk. -/
def select_sessions (db : DB) (project_key : String) (current_session_id : String)
    (max_sessions : Nat) : List SelectedSession :=
  match db.projects.find? fun p => p.key = project_key with
  | none => []
  | some p => selectLoop db max_sessions (candidateRows db p.id current_session_id) []

end memory_context

namespace sync_current

/-- One entry of the projects directory as `get_session_file` walks it:
its name, whether it is a directory, which session stems have a
`<stem>.jsonl` file at its top level, and its immediate subdirectories
(each with a flag for a `subagents` subdirectory and the `.jsonl` file
names inside it). -/
structure SubDir where
  isDir : Bool
  hasSubagents : Bool
  subagentFiles : List String
deriving DecidableEq, Repr

structure ProjDir where
  isDir : Bool
  sessionStems : List String
  subdirs : List SubDir
deriving DecidableEq, Repr

/-- Python `needle in haystack` for the `*<sid>*.jsonl` glob: the model
keeps a file name iff it contains the session id (the `.jsonl` suffix is
part of the listed names). -/
def globMatches (sid : String) (names : List String) : List String :=
  names.filter fun n => (splitFirstSub sid.toList n.toList).isSome

/-- `get_session_file`.  `projectsDir? = none` models a missing projects
directory: `projects_dir.iterdir()` raises FileNotFoundError, which the
model surfaces as an error value. -/
def get_session_file (projectsDir? : Option (List ProjDir)) (sid : String) :
    Except String (Option String) :=
  match projectsDir? with
  | none => .error "FileNotFoundError"
  | some dirs => .ok (searchDirs dirs sid)
where
  searchSubdirs : List SubDir → String → Option String
    | [], _ => none
    | sd :: rest, sid =>
      if sd.isDir ∧ sd.hasSubagents then
        match globMatches sid sd.subagentFiles with
        | f :: _ => some f
        | [] => searchSubdirs rest sid
      else searchSubdirs rest sid
  searchDirs : List ProjDir → String → Option String
    | [], _ => none
    | d :: rest, sid =>
      if ¬ d.isDir then searchDirs rest sid
      else if sid ∈ d.sessionStems then some (sid ++ ".jsonl")
      else
        match searchSubdirs d.subdirs sid with
        | some f => some f
        | none => searchDirs rest sid

/-- One JSON object printed to stdout by the hook. -/
structure HookOut where
  continue_ : Bool
  suppressOutput : Option Bool := none
deriving DecidableEq, Repr

/-- The observable outcome of one hook invocation: either a normal run with
its stdout objects, exit code zero and empty stderr, or an uncaught
exception (traceback on stderr, nonzero exit, nothing on stdout). -/
inductive HookRun where
  | out (objs : List HookOut)
  | crash (exc : String)
deriving DecidableEq, Repr

/-- The environment of one `main()` invocation.  `stdinSessionId?` is the
`session_id` taken from the hook input (a JSON parse failure yields the
empty dict and hence no session id); `syncOutcome` abstracts the body of
the try block (database open, `sync_session`, commit): either the number of
new messages or a raised exception. -/
structure MainEnv where
  syncOnStop : Bool := true
  stdinSessionId? : Option String := none
  projectsDir? : Option (List ProjDir) := some []
  syncOutcome : Except String Nat := .ok 0
deriving Repr

/-- `sync_current.main`.  `get_session_file` is called outside the
try/except, so an error raised there propagates and crashes the hook. -/
def main (env : MainEnv) : HookRun :=
  if ¬ env.syncOnStop then .out [{ continue_ := true }]
  else
    match env.stdinSessionId? with
    | none => .out [{ continue_ := true }]
    | some sid =>
      match get_session_file env.projectsDir? sid with
      | .error e => .crash e
      | .ok none => .out [{ continue_ := true }]
      | .ok (some _) =>
        match env.syncOutcome with
        | .error _ => .out [{ continue_ := true }]
        | .ok n =>
          if n > 0 then .out [{ continue_ := true, suppressOutput := some true }]
          else .out [{ continue_ := true }]

end sync_current

/-! ## Invariant predicates over the store -/

/-- The number of active branch rows of one session. -/
def activeBranchCount (db : DB) (sid : Nat) : Nat :=
  (db.branches.filter fun b => b.session_id = sid ∧ b.is_active).length

/-- Exactly one branch row of every session that has branch rows carries
`is_active = 1` (quantified over the branch rows themselves, so sessions
without rows are vacuously fine). -/
def activeUniqueInv (db : DB) : Prop :=
  ∀ b ∈ db.branches, activeBranchCount db b.session_id = 1

instance : DecidablePred activeUniqueInv := fun db =>
  inferInstanceAs (Decidable (∀ b ∈ db.branches, activeBranchCount db b.session_id = 1))

/-- Every message row is referenced by at least one branch-membership row. -/
def noOrphanInv (db : DB) : Prop :=
  ∀ m ∈ db.messages, ∃ p ∈ db.branch_messages, p.2 = m.id

instance : DecidablePred noOrphanInv := fun db =>
  inferInstanceAs (Decidable (∀ m ∈ db.messages, ∃ p ∈ db.branch_messages, p.2 = m.id))

/-- Store well-formedness used as a precondition of the invariant
preservation theorems: primary keys are unique, `(session_id, leaf_uuid)`
of branches and `(session_id, uuid)` of non-NULL-uuid messages are unique
(the UNIQUE constraints of the v3 schema), and every branch-membership row
links a message to a branch of the same session. -/
structure WFStore (db : DB) : Prop where
  branchIdsNodup : (db.branches.map (·.id)).Nodup
  messageIdsNodup : (db.messages.map (·.id)).Nodup
  branchKeysNodup : (db.branches.map fun b => (b.session_id, b.leaf_uuid)).Nodup
  messageKeysAtMostOne : ∀ m1 ∈ db.messages, ∀ m2 ∈ db.messages,
    m1.session_id = m2.session_id → m1.uuid.isSome → m1.uuid = m2.uuid → m1 = m2
  bmConsistent : ∀ p ∈ db.branch_messages,
    ∃ b ∈ db.branches, b.id = p.1 ∧
      ∃ m ∈ db.messages, m.id = p.2 ∧ m.session_id = b.session_id

/-- Invariant on the branch table while the branch loop of step 4 runs,
after the head (active) branch has been processed: `aid` is the id of the
single active row of session `sid` and that row carries the head's leaf
uuid; rows of other sessions are exactly those of the table `orig` the loop
started from; row ids stay unique; and `aid` is either the snapshot id of
the head leaf or absent from the snapshot `exB` entirely, so later
iterations never target it. -/
structure MidInv (sid : Nat) (exB : List (String × Nat)) (headLeaf : String)
    (orig : List BranchRow) (aid : Nat) (cur : List BranchRow) : Prop where
  act_iff : ∀ b ∈ cur, b.session_id = sid → (b.is_active = true ↔ b.id = aid)
  arow : ∃ brow ∈ cur, brow.id = aid ∧ brow.session_id = sid ∧
    brow.leaf_uuid = headLeaf ∧ brow.is_active = true
  idsNodup : (cur.map (·.id)).Nodup
  foreign : cur.filter (fun b => ¬ b.session_id = sid) =
    orig.filter (fun b => ¬ b.session_id = sid)
  protect : lookupLastPair exB headLeaf = some aid ∨ ∀ q ∈ exB, q.2 ≠ aid

/-! ## Concrete scenario inputs -/

namespace Scenario

/-- A user record with string content. -/
def userRec (u : String) (p : Option String) (ts text : String) : Entry :=
  { type? := some "user", uuid? := some u, parentUuid? := p,
    timestamp? := some ts, content := .str text }

/-- An assistant record with string content. -/
def asstRec (u : String) (p : Option String) (ts text : String) : Entry :=
  { type? := some "assistant", uuid? := some u, parentUuid? := p,
    timestamp? := some ts, content := .str text }

/-- S1: the linear session `A → B → C`. -/
def s1Entries : List Entry :=
  [userRec "A" none "2025-01-01T10:00:00Z" "hi",
   asstRec "B" (some "A") "2025-01-01T10:00:05Z" "hello",
   userRec "C" (some "B") "2025-01-01T10:01:00Z" "bye"]

def s1Lines : List Line := s1Entries.map .record

def s1SyncFile : sync_current.SyncFile := { stem := "sess1", lines := s1Lines }

def s1BulkFile : import_conversations.BulkFile :=
  { path := "/proj/sess1.jsonl", stem := "sess1", hash := "md5-s1", lines := s1Lines }

/-- S2: the rewind `A → B → C` plus `A → B → D`, `D` latest. -/
def s2Entries : List Entry :=
  s1Entries ++ [userRec "D" (some "B") "2025-01-01T10:02:00Z" "take two"]

/-- The expected active branch of S2. -/
def s2Active : memory_utils.BranchInfo :=
  { leaf_uuid := "D", uuids := ["D", "B", "A"], is_active := true,
    fork_point_uuid := none }

/-- The expected abandoned branch of S2. -/
def s2Abandoned : memory_utils.BranchInfo :=
  { leaf_uuid := "C", uuids := ["B", "A", "C"], is_active := false,
    fork_point_uuid := some "B" }

/-- A session made only of tool-result user records. -/
def toolOnlyEntries : List Entry :=
  [{ type? := some "user", uuid? := some "T1", timestamp? := some "2025-01-01T10:00:00Z",
     content := .items [.toolResult] },
   { type? := some "user", uuid? := some "T2", parentUuid? := some "T1",
     timestamp? := some "2025-01-01T10:00:01Z", content := .items [.toolResult] }]

/-- First version of the session used against C2: a linear chain ending in
leaf `L`. -/
def linearLFile : sync_current.SyncFile := { stem := "sess2", lines := [
  .record (userRec "A" none "2025-01-01T10:00:00Z" "hi"),
  .record (asstRec "B" (some "A") "2025-01-01T10:00:01Z" "hello"),
  .record (userRec "L" (some "B") "2025-01-01T10:00:05Z" "leaf")] }

/-- Second version: two records reuse uuid `L` with different parents, so
the detector emits an abandoned branch whose leaf is the active leaf. -/
def dupLFile : sync_current.SyncFile := { stem := "sess2", lines := [
  .record (userRec "A" none "2025-01-01T10:00:00Z" "hi"),
  .record (asstRec "B" (some "A") "2025-01-01T10:00:01Z" "hello"),
  .record (userRec "K" (some "A") "2025-01-01T10:00:02Z" "side"),
  .record (userRec "L" (some "K") "2025-01-01T10:00:03Z" "dup"),
  .record (userRec "L" (some "B") "2025-01-01T10:00:05Z" "leaf")] }

/-- S1 with the text of message `A` changed in the log. -/
def s1ChangedFile : sync_current.SyncFile := { stem := "sess1", lines := [
  .record (userRec "A" none "2025-01-01T10:00:00Z" "hi CHANGED"),
  .record (asstRec "B" (some "A") "2025-01-01T10:00:05Z" "hello"),
  .record (userRec "C" (some "B") "2025-01-01T10:01:00Z" "bye")] }

/-- The store after one sync of S1 into an empty store. -/
def dbS1 : DB := (sync_current.sync_session emptyDB s1SyncFile "-tmp-proj").1

/-- The store for scenario S5: three candidate sessions with exchange
counts 1, 2, 5 ordered newest-first by branch end time. -/
def s5db : DB :=
  { projects := [{ id := 1, path := "/p", key := "-p", name := "p" }],
    sessions := [
      { id := 1, uuid := "s1", project_id := 1 },
      { id := 2, uuid := "s2", project_id := 1 },
      { id := 3, uuid := "s3", project_id := 1 }],
    branches := [
      { id := 1, session_id := 1, leaf_uuid := "l1", is_active := true,
        ended_at := some "2025-01-03T00:00:00Z", exchange_count := 1 },
      { id := 2, session_id := 2, leaf_uuid := "l2", is_active := true,
        ended_at := some "2025-01-02T00:00:00Z", exchange_count := 2 },
      { id := 3, session_id := 3, leaf_uuid := "l3", is_active := true,
        ended_at := some "2025-01-01T00:00:00Z", exchange_count := 5 }] }

end Scenario

/-! ## Supporting lemmas -/

/-- The text items of a content list. -/
def isTextItem : ContentItem → Bool
  | .text _ => true
  | _ => false

/-- The text payloads of the text items. -/
def textsOf (l : List ContentItem) : List String :=
  l.filterMap fun item =>
    match item with
    | .text s => some s
    | _ => none

lemma extractItemStep_texts (l : List ContentItem) (texts : List String)
    (htu hth : Bool) (counts : List (String × Nat)) :
    (l.foldl memory_utils.extractItemStep (texts, htu, hth, counts)).1 =
      texts ++ textsOf l := by
  induction l generalizing texts htu hth counts with
  | nil => simp [textsOf]
  | cons item rest ih =>
    cases item <;>
      simp [memory_utils.extractItemStep, textsOf, ih, List.append_assoc]

lemma textsOf_filter (l : List ContentItem) :
    textsOf (l.filter isTextItem) = textsOf l := by
  induction l with
  | nil => rfl
  | cons item rest ih => cases item <;> simp [textsOf, isTextItem, ih] <;> exact ih

/-- The count of real user records: user records whose content is not a
tool-result list. -/
def countRealUsers (entries : List Entry) : Nat :=
  entries.countP fun e =>
    e.type? == some "user" && ! memory_utils.is_tool_result e.content

/-- The final exchange-count adjustment of `compute_branch_metadata`. -/
def finishCount (r : Nat × List String × List String × Bool) : Nat :=
  if r.2.2.2 then r.1 + 1 else r.1

lemma cbmStep_count (l : List Entry) (xc : Nat) (fs cs : List String) (hu : Bool) :
    finishCount (l.foldl memory_utils.cbmStep (xc, fs, cs, hu)) =
      (if hu then xc + 1 else xc) + countRealUsers l := by
  induction l generalizing xc fs cs hu with
  | nil => simp [countRealUsers, finishCount]
  | cons e rest ih =>
    have hcount : countRealUsers (e :: rest) =
        (if e.type? == some "user" && ! memory_utils.is_tool_result e.content
         then 1 else 0) + countRealUsers rest := by
      simp only [countRealUsers, List.countP_cons]
      split <;> omega
    rw [hcount, List.foldl_cons]
    by_cases huser : e.type? = some "user"
    · cases htr : memory_utils.is_tool_result e.content with
      | true =>
        have h1 : memory_utils.cbmStep (xc, fs, cs, hu) e = (xc, fs, cs, hu) := by
          simp [memory_utils.cbmStep, huser, htr]
        rw [h1, ih]
        simp [huser, htr]
      | false =>
        have hasst : ¬ e.type? = some "assistant" := by simp [huser]
        have h1 : memory_utils.cbmStep (xc, fs, cs, hu) e =
            (if hu then xc + 1 else xc, fs, cs, true) := by
          simp [memory_utils.cbmStep, huser, htr, hasst]
        rw [h1, ih]
        simp only [huser, htr]
        cases hu <;> simp <;> omega
    · by_cases hasst : e.type? = some "assistant"
      · have h1 : memory_utils.cbmStep (xc, fs, cs, hu) e =
            (xc, fs ++ memory_utils.extract_files_modified e.content,
              cs ++ memory_utils.extract_commits e.content, hu) := by
          simp [memory_utils.cbmStep, huser, hasst]
        rw [h1, ih]
        simp [huser]
      · have h1 : memory_utils.cbmStep (xc, fs, cs, hu) e = (xc, fs, cs, hu) := by
          simp [memory_utils.cbmStep, huser, hasst]
        rw [h1, ih]
        simp [huser]

/-! ## Claim theorems -/

/-- C6: for every branch, the computed `exchange_count` equals the number of
real user records in it (user records whose content is not a tool-result
list); in particular the linear session S1 (user, assistant, user) yields
exchange count 2 and a branch containing only tool-result user records
yields exchange count 0. -/
theorem C6_exchange_count :
    (∀ entries : List Entry,
      (memory_utils.compute_branch_metadata entries).1 = countRealUsers entries) ∧
    (memory_utils.compute_branch_metadata Scenario.s1Entries).1 = 2 ∧
    (memory_utils.compute_branch_metadata Scenario.toolOnlyEntries).1 = 0 := by
  refine ⟨fun entries => ?_, by decide, by decide⟩
  have h := cbmStep_count entries 0 [] [] false
  simpa [memory_utils.compute_branch_metadata, finishCount] using h

/-- C8 counterexample: the claim asserts that content extraction never
materializes tool-use markers into the text on either path, but the
bulk importer's `extract_text_content` turns a named `tool_use` item into
the text `[Tool: Bash]`, while the text items alone yield the empty
string. -/
theorem C8_counterexample :
    (import_conversations.extract_text_content
      (.items [.toolUse "Bash" []])).1 = "[Tool: Bash]" ∧
    (import_conversations.extract_text_content
      (.items ([ContentItem.toolUse "Bash" []].filter isTextItem))).1 = "" := by
  decide

/-- C8 (amended): the sync path's extractor (`memory_utils`) never
materializes tool markers — its text output depends only on the text items
— while tool-use items only set the has-tool-use flag and the tool summary;
the bulk importer's extractor is the one that appends `[Tool: name]`
markers. -/
theorem C8_no_tool_markers :
    (∀ l : List ContentItem,
      (memory_utils.extract_text_content (.items l)).1 =
        (memory_utils.extract_text_content (.items (l.filter isTextItem))).1) ∧
    (memory_utils.extract_text_content
      (.items [.toolUse "Bash" [], .text "ok", .thinking]) =
      ("ok", true, true, some [("Bash", 1)])) := by
  refine ⟨fun l => ?_, by decide⟩
  simp only [memory_utils.extract_text_content]
  rw [extractItemStep_texts, extractItemStep_texts, textsOf_filter]

/-- C9 counterexample: a `progress` record carrying a uuid is yielded by the
graph stream, so the graph stream does not discard the noise record types. -/
theorem C9_counterexample :
    memory_utils.parse_all_with_uuids
        [Line.record { type? := some "progress", uuid? := some "X" }] =
      [{ type? := some "progress", uuid? := some "X" }] := by
  decide

/-- C9 (amended): the graph stream yields exactly the decoded records whose
uuid is truthy, regardless of type and meta flag; the discarding of the
noise record types and of meta records applies to the message stream, which
yields exactly the non-meta user/assistant records. -/
theorem C9_graph_stream_filtering :
    (∀ (file : List Line) (e : Entry),
      e ∈ memory_utils.parse_all_with_uuids file ↔
        Line.record e ∈ file ∧ (truthyStr e.uuid?).isSome = true) ∧
    (∀ (file : List Line) (e : Entry),
      e ∈ import_conversations.parse_jsonl_file file ↔
        Line.record e ∈ file ∧ e.isMeta = false ∧
          (e.type? = some "user" ∨ e.type? = some "assistant")) := by
  constructor
  · intro file e
    simp only [memory_utils.parse_all_with_uuids, List.mem_filterMap]
    constructor
    · rintro ⟨l, hl, hfl⟩
      cases l with
      | record e2 =>
        by_cases hu : (truthyStr e2.uuid?).isSome = true
        · simp only [hu, if_true] at hfl
          cases hfl
          exact ⟨hl, hu⟩
        · simp [hu] at hfl
      | blank => simp at hfl
      | malformed => simp at hfl
    · rintro ⟨hl, hu⟩
      exact ⟨Line.record e, hl, by simp [hu]⟩
  · intro file e
    simp only [import_conversations.parse_jsonl_file, List.mem_filterMap]
    constructor
    · rintro ⟨l, hl, hfl⟩
      cases l with
      | blank => simp at hfl
      | malformed => simp at hfl
      | record e2 =>
        by_cases hnoise : e2.type? = some "progress" ∨ e2.type? = some "file-history-snapshot" ∨
            e2.type? = some "queue-operation"
        · simp [hnoise] at hfl
        · by_cases hmeta : e2.isMeta
          · simp [hnoise, hmeta] at hfl
          · by_cases hua : e2.type? = some "user" ∨ e2.type? = some "assistant"
            · simp only [if_neg hnoise, hmeta, Bool.false_eq_true, if_false, if_pos hua] at hfl
              cases hfl
              exact ⟨hl, by simpa using hmeta, hua⟩
            · simp [hnoise, hmeta, hua] at hfl
    · rintro ⟨hl, hmeta, hua⟩
      refine ⟨Line.record e, hl, ?_⟩
      have hnoise : ¬ (e.type? = some "progress" ∨ e.type? = some "file-history-snapshot" ∨
          e.type? = some "queue-operation") := by
        rcases hua with h | h <;> simp [h]
      simp [hnoise, hmeta, hua]

/-- C10: the incremental sync hook is supposed to emit `{"continue": true}`
with exit code zero on every input and error, but `get_session_file` is
called outside the try block, so a missing projects directory raises
FileNotFoundError and crashes the hook (traceback on stderr, nonzero exit,
no stdout).  Every run in which the projects directory exists does emit
exactly one JSON object with `continue = true`. -/
theorem C10_sync_error_policy :
    (sync_current.main
        { syncOnStop := true
          stdinSessionId? := some "abc123"
          projectsDir? := none
          syncOutcome := .ok 0 } =
      .crash "FileNotFoundError") ∧
    (∀ (sos : Bool) (sid? : Option String) (dirs : List sync_current.ProjDir)
        (so : Except String Nat),
      ∃ o : sync_current.HookOut,
        sync_current.main
            { syncOnStop := sos
              stdinSessionId? := sid?
              projectsDir? := some dirs
              syncOutcome := so } = .out [o] ∧
        o.continue_ = true) := by
  constructor
  · rfl
  · intro sos sid? dirs so
    cases sos with
    | false => exact ⟨{ continue_ := true }, rfl, rfl⟩
    | true =>
      cases sid? with
      | none => exact ⟨{ continue_ := true }, rfl, rfl⟩
      | some sid =>
        simp only [sync_current.main, sync_current.get_session_file]
        cases h : sync_current.get_session_file.searchDirs dirs sid with
        | none => exact ⟨{ continue_ := true }, rfl, rfl⟩
        | some f =>
          cases so with
          | error e => exact ⟨{ continue_ := true }, rfl, rfl⟩
          | ok n =>
            by_cases hn : n > 0
            · exact ⟨{ continue_ := true, suppressOutput := some true }, by simp [hn], rfl⟩
            · exact ⟨{ continue_ := true }, by simp [hn], rfl⟩

lemma collectSubtreeGo_acc_mem (all : List Entry) (x : String) :
    ∀ (fuel : Nat) (stack acc : List String), x ∈ acc →
      x ∈ memory_utils.collectSubtreeGo all fuel stack acc := by
  intro fuel
  induction fuel with
  | zero => intro stack acc h; simpa [memory_utils.collectSubtreeGo] using h
  | succ f ih =>
    intro stack acc h
    cases stack with
    | nil => simpa [memory_utils.collectSubtreeGo] using h
    | cons n rest =>
      simp only [memory_utils.collectSubtreeGo]
      by_cases hn : n ∈ acc
      · simpa [hn] using ih rest acc h
      · simpa [hn] using ih _ (n :: acc) (List.mem_cons_of_mem _ h)

lemma collectSubtree_self_mem (all : List Entry) (k : String) :
    k ∈ memory_utils.collectSubtree all k := by
  unfold memory_utils.collectSubtree
  have h1 : 1 ≤ (all.length + 1) * (all.length + 1) :=
    Nat.one_le_iff_ne_zero.mpr (Nat.mul_ne_zero (Nat.succ_ne_zero _) (Nat.succ_ne_zero _))
  obtain ⟨f, hf⟩ : ∃ f, (all.length + 1) * (all.length + 1) = f + 1 :=
    ⟨(all.length + 1) * (all.length + 1) - 1, by omega⟩
  rw [hf]
  simp only [memory_utils.collectSubtreeGo, List.not_mem_nil, if_neg]
  exact collectSubtreeGo_acc_mem all k f _ [k] (List.mem_singleton.mpr rfl)

lemma childrenOf_mem_entry (all : List Entry) (p k : String)
    (h : k ∈ memory_utils.childrenOf all p) :
    ∃ e ∈ memory_utils.entriesWithUuid all, truthyStr e.uuid? = some k := by
  unfold memory_utils.childrenOf at h
  rcases List.mem_filterMap.mp h with ⟨e, he, hfe⟩
  refine ⟨e, he, ?_⟩
  cases hp : truthyStr e.parentUuid? with
  | none => rw [hp] at hfe; simp at hfe
  | some pp =>
    rw [hp] at hfe
    by_cases hpe : pp = p
    · simpa [hpe] using hfe
    · simp [hpe] at hfe

lemma uuidToEntry_isSome_of (all : List Entry) (k : String)
    (h : ∃ e ∈ memory_utils.entriesWithUuid all, truthyStr e.uuid? = some k) :
    ∃ e2, memory_utils.uuidToEntry all k = some e2 := by
  obtain ⟨e, he, hk⟩ := h
  unfold memory_utils.uuidToEntry
  have hmem : e ∈ (memory_utils.entriesWithUuid all).filter
      fun e => truthyStr e.uuid? = some k := by
    simp only [List.mem_filter]
    exact ⟨he, by simp [hk]⟩
  have hne : ((memory_utils.entriesWithUuid all).filter
      fun e => truthyStr e.uuid? = some k) ≠ [] :=
    List.ne_nil_of_mem hmem
  rcases Option.isSome_iff_exists.mp (List.getLast?_isSome.mpr hne) with ⟨e2, he2⟩
  exact ⟨e2, he2⟩

lemma maxByTs_of_ne_nil {l : List Entry} (h : l ≠ []) :
    ∃ e, memory_utils.maxByTs l = some e := by
  cases l with
  | nil => exact absurd rfl h
  | cons a as => exact ⟨_, rfl⟩

/-- C1: on scenario S2 the detector returns exactly the active branch
(leaf D, members {A, B, D}, NULL fork point) followed by the abandoned
branch (leaf C, members {A, B, C}, fork point B); in general, every fork
node `u` on the active path with a non-active child `k` whose subtree
contains a user record yields an emitted inactive branch with fork point `u`
whose uuid set is `ancestors(u) ∪ subtree(k)`. -/
theorem C1_branch_reconstruction :
    (memory_utils.find_all_branches Scenario.s2Entries =
        [Scenario.s2Active, Scenario.s2Abandoned] ∧
      Scenario.s2Active.uuids.toFinset = {"A", "B", "D"} ∧
      Scenario.s2Abandoned.uuids.toFinset = {"A", "B", "C"}) ∧
    (∀ (all : List Entry) (u k : String),
      u ∈ memory_utils.activePathOf all →
      2 ≤ (memory_utils.childrenOf all u).length →
      k ∈ memory_utils.childrenOf all u →
      k ∉ memory_utils.activePathOf all →
      memory_utils.hasUserDescendant all 101 k = true →
      ∃ b ∈ memory_utils.find_all_branches all,
        b.is_active = false ∧ b.fork_point_uuid = some u ∧
        b.uuids.toFinset =
          (memory_utils.ancestorsOf all u).toFinset ∪
            (memory_utils.collectSubtree all k).toFinset) := by
  refine ⟨⟨by decide, by decide, by decide⟩, ?_⟩
  intro all u k hu hdeg hk hka hud
  cases hlatest : memory_utils.latestEntry all with
  | none =>
    rw [memory_utils.activePathOf, hlatest] at hu
    simp at hu
  | some latest =>
    have hsub : k ∈ memory_utils.collectSubtree all k := collectSubtree_self_mem all k
    obtain ⟨e2, he2⟩ := uuidToEntry_isSome_of all k (childrenOf_mem_entry all u k hk)
    have hne : (memory_utils.collectSubtree all k).filterMap
        (memory_utils.uuidToEntry all) ≠ [] := by
      apply List.ne_nil_of_mem (a := e2)
      exact List.mem_filterMap.mpr ⟨k, hsub, he2⟩
    obtain ⟨leafE, hleafE⟩ := maxByTs_of_ne_nil hne
    set act := memory_utils.activePathOf all with hact
    set b : memory_utils.BranchInfo :=
      { leaf_uuid := (truthyStr leafE.uuid?).getD "",
        uuids := memory_utils.ancestorsOf all u ++ memory_utils.collectSubtree all k,
        is_active := false, fork_point_uuid := some u } with hb
    have hbmem : b ∈ memory_utils.abandonedAt all act u := by
      unfold memory_utils.abandonedAt
      rw [if_neg (by omega)]
      refine List.mem_filterMap.mpr ⟨k, hk, ?_⟩
      rw [if_neg (by simpa using hka), if_neg (by simp [hud])]
      simp only [hleafE, hb]
    refine ⟨b, ?_, rfl, rfl, by simp [hb]⟩
    rw [memory_utils.find_all_branches, hlatest]
    exact List.mem_cons_of_mem _ (List.mem_flatMap.mpr ⟨u, hu, hbmem⟩)

/-- C1 witness: the general branch-shape statement applied to scenario S2 at
the fork node B and its non-active child C. -/
theorem C1_branch_reconstruction_witness :
    ∃ b ∈ memory_utils.find_all_branches Scenario.s2Entries,
      b.is_active = false ∧ b.fork_point_uuid = some "B" ∧
      b.uuids.toFinset =
        (memory_utils.ancestorsOf Scenario.s2Entries "B").toFinset ∪
          (memory_utils.collectSubtree Scenario.s2Entries "C").toFinset :=
  C1_branch_reconstruction.2 Scenario.s2Entries "B" "C" (by decide) (by decide)
    (by decide) (by decide) (by decide)

/-- A bare candidate row with a given exchange count, for exercising the
selection walk. -/
def Scenario.cRow (xc : Nat) : memory_context.CandRow :=
  { session_row_id := 1, uuid := "u", started_at := none, ended_at := none,
    exchange_count := xc, files_modified := none, commits := none,
    git_branch := none, branch_db_id := 1 }

/-- C7: the context selector queries at most 20 candidate active-branch rows
(newest end time first, excluding the current session and sub-agent
sessions), skips every candidate with exchange count ≤ 1, includes a
2-exchange candidate and keeps scanning while under `max_context_sessions`,
and includes the first candidate with exchange count > 2 and stops; on
scenario S5 (counts [1, 2, 5] newest-first, max 2) it returns exactly the
2-exchange session followed by the 5-exchange session. -/
theorem C7_context_selection :
    ((memory_context.select_sessions Scenario.s5db "-p" "cur" 2).map
        (fun s => (s.uuid, s.exchange_count)) = [("s2", 2), ("s3", 5)]) ∧
    (∀ (db : DB) (pid : Nat) (cur : String),
      (memory_context.candidateRows db pid cur).length ≤ 20) ∧
    (∀ (db : DB) (maxS : Nat) (cands : List memory_context.CandRow)
        (sel : List memory_context.SelectedSession)
        (sd : memory_context.SelectedSession),
      sd ∈ memory_context.selectLoop db maxS cands sel →
        sd ∈ sel ∨ 2 ≤ sd.exchange_count) ∧
    (∀ (db : DB) (maxS : Nat) (c : memory_context.CandRow)
        (rest : List memory_context.CandRow)
        (sel : List memory_context.SelectedSession),
      c.exchange_count ≤ 1 →
        memory_context.selectLoop db maxS (c :: rest) sel =
          memory_context.selectLoop db maxS rest sel) ∧
    (∀ (db : DB) (maxS : Nat) (c : memory_context.CandRow)
        (rest : List memory_context.CandRow)
        (sel : List memory_context.SelectedSession),
      c.exchange_count = 2 → sel.length + 1 < maxS →
        memory_context.selectLoop db maxS (c :: rest) sel =
          memory_context.selectLoop db maxS rest
            (sel ++ [memory_context.buildSessionData db c])) ∧
    (∀ (db : DB) (maxS : Nat) (c : memory_context.CandRow)
        (rest : List memory_context.CandRow)
        (sel : List memory_context.SelectedSession),
      2 < c.exchange_count →
        memory_context.selectLoop db maxS (c :: rest) sel =
          sel ++ [memory_context.buildSessionData db c]) := by
  refine ⟨by decide, ?_, ?_, ?_, ?_, ?_⟩
  · intro db pid cur
    unfold memory_context.candidateRows
    exact List.length_take_le 20 _
  · intro db maxS cands
    induction cands with
    | nil => intro sel sd h; exact Or.inl h
    | cons c rest ih =>
      intro sel sd h
      unfold memory_context.selectLoop at h
      by_cases h1 : c.exchange_count ≤ 1
      · rw [if_pos h1] at h
        exact ih sel sd h
      · rw [if_neg h1] at h
        by_cases h2 : c.exchange_count = 2
        · rw [if_pos h2] at h
          by_cases h3 : maxS ≤ (sel ++ [memory_context.buildSessionData db c]).length
          · rw [if_pos h3] at h
            rcases List.mem_append.mp h with h4 | h4
            · exact Or.inl h4
            · right
              rw [List.mem_singleton.mp h4]
              simp [memory_context.buildSessionData, h2]
          · rw [if_neg h3] at h
            rcases ih _ sd h with h4 | h4
            · rcases List.mem_append.mp h4 with h5 | h5
              · exact Or.inl h5
              · right
                rw [List.mem_singleton.mp h5]
                simp [memory_context.buildSessionData, h2]
            · exact Or.inr h4
        · rw [if_neg h2] at h
          rcases List.mem_append.mp h with h4 | h4
          · exact Or.inl h4
          · right
            rw [List.mem_singleton.mp h4]
            simp [memory_context.buildSessionData]
            omega
  · intro db maxS c rest sel h1
    conv_lhs => rw [memory_context.selectLoop]
    rw [if_pos h1]
  · intro db maxS c rest sel h2 hlen
    conv_lhs => rw [memory_context.selectLoop]
    rw [if_neg (by omega), if_pos h2, if_neg (by simp; omega)]
  · intro db maxS c rest sel h3
    conv_lhs => rw [memory_context.selectLoop]
    rw [if_neg (by omega), if_neg (by omega)]

/-- C7 witness: the selection rules applied at concrete candidates — a
1-exchange candidate is skipped, a 2-exchange candidate is taken and
scanning continues, a 5-exchange candidate is taken and scanning stops, and
every selected session has exchange count at least 2. -/
theorem C7_context_selection_witness :
    (memory_context.selectLoop Scenario.s5db 2 [Scenario.cRow 1] [] =
      memory_context.selectLoop Scenario.s5db 2 [] []) ∧
    (memory_context.selectLoop Scenario.s5db 5 [Scenario.cRow 2, Scenario.cRow 9] [] =
      memory_context.selectLoop Scenario.s5db 5 [Scenario.cRow 9]
        [memory_context.buildSessionData Scenario.s5db (Scenario.cRow 2)]) ∧
    (memory_context.selectLoop Scenario.s5db 2 [Scenario.cRow 9] [] =
      [memory_context.buildSessionData Scenario.s5db (Scenario.cRow 9)]) ∧
    (memory_context.buildSessionData Scenario.s5db (Scenario.cRow 9) ∈
        ([] : List memory_context.SelectedSession) ∨
      2 ≤ (memory_context.buildSessionData Scenario.s5db (Scenario.cRow 9)).exchange_count) :=
  ⟨(C7_context_selection.2.2.2.1 Scenario.s5db 2 (Scenario.cRow 1) [] [] (by decide)),
   (C7_context_selection.2.2.2.2.1 Scenario.s5db 5 (Scenario.cRow 2) [Scenario.cRow 9] []
      (by decide) (by decide)),
   (by simpa using (C7_context_selection.2.2.2.2.2 Scenario.s5db 2 (Scenario.cRow 9) [] []
      (by decide))),
   (C7_context_selection.2.2.1 Scenario.s5db 2 [Scenario.cRow 9] []
      (memory_context.buildSessionData Scenario.s5db (Scenario.cRow 9)) (by decide))⟩

/-- C2 counterexample: both sync calls commit, yet after syncing the second
version of the file — in which two records reuse uuid `L`, so the detector
emits an abandoned branch whose leaf equals the active leaf — the session's
only branch row ends with `is_active = 0`: a session with branch rows and
no active branch. -/
theorem C2_counterexample :
    activeUniqueInv (sync_current.sync_session emptyDB Scenario.linearLFile "-tmp-proj").1 ∧
    ((sync_current.sync_session
        (sync_current.sync_session emptyDB Scenario.linearLFile "-tmp-proj").1
        Scenario.dupLFile "-tmp-proj").1.branches ≠ []) ∧
    ¬ activeUniqueInv
        (sync_current.sync_session
          (sync_current.sync_session emptyDB Scenario.linearLFile "-tmp-proj").1
          Scenario.dupLFile "-tmp-proj").1 := by
  decide

/-- C3 counterexample: a bulk import of scenario S1 into an empty store
commits message rows but no branch-membership rows at all (the bulk schema
has no branch tables), so its messages are referenced by no
`branch_messages` row. -/
theorem C3_counterexample :
    ((import_conversations.import_session emptyDB Scenario.s1BulkFile 1 none).1.messages ≠ []) ∧
    ((import_conversations.import_session emptyDB Scenario.s1BulkFile 1 none).1.branch_messages = []) ∧
    ¬ noOrphanInv (import_conversations.import_session emptyDB Scenario.s1BulkFile 1 none).1 := by
  decide

/-- C4 counterexample: re-syncing scenario S1 after the text of message `A`
changed in the log leaves the stored text at the old value `hi`, while a
fresh import of the same file into an empty store yields `hi CHANGED`. -/
theorem C4_counterexample :
    (((sync_current.sync_session Scenario.dbS1 Scenario.s1ChangedFile "-tmp-proj").1.messages.filter
        fun m => m.uuid = some "A").map (·.content) = ["hi"]) ∧
    (((sync_current.sync_session emptyDB Scenario.s1ChangedFile "-tmp-proj").1.messages.filter
        fun m => m.uuid = some "A").map (·.content) = ["hi CHANGED"]) := by
  decide

/-- C5 counterexample: the second sync call on the byte-identical S1 file is
not a store-level no-op as executed — it re-runs the rebuild, performing a
session update, a branch update, three branch-membership deletions and three
insertions — and it returns a message count, not a skip sentinel (the sync
path never consults the import log). -/
theorem C5_counterexample :
    ((sync_current.sync_session Scenario.dbS1 Scenario.s1SyncFile "-tmp-proj").2.2.filter
        fun op => 0 < op.rows) =
      [.updateRows "sessions" 1, .updateRows "branches" 1,
       .deleteRows "branch_messages" 3, .insertRow "branch_messages",
       .insertRow "branch_messages", .insertRow "branch_messages"] := by
  decide

lemma bulkStep_import_log (sid : Nat) (st : import_conversations.BulkLoopState) (e : Entry) :
    (import_conversations.bulkStep sid st e).db.import_log = st.db.import_log := by
  unfold import_conversations.bulkStep
  dsimp only
  (repeat' split) <;> rfl

lemma bulk_foldl_import_log (sid : Nat) (entries : List Entry)
    (st : import_conversations.BulkLoopState) :
    ((entries.foldl (import_conversations.bulkStep sid) st).db).import_log =
      st.db.import_log := by
  induction entries generalizing st with
  | nil => rfl
  | cons e rest ih => rw [List.foldl_cons, ih, bulkStep_import_log]

lemma importLog_find_after_update (l : List ImportLogRow) (path hash : String)
    (cnt : Nat) (r0 : ImportLogRow)
    (h : l.find? (fun r => r.file_path = path) = some r0) :
    (l.map fun r =>
        if r.file_path = path then
          { r with file_hash := hash, messages_imported := cnt }
        else r).find? (fun r => r.file_path = path) =
      some { r0 with file_hash := hash, messages_imported := cnt } := by
  induction l with
  | nil => simp at h
  | cons a as ih =>
    by_cases hp : a.file_path = path
    · rw [List.find?_cons_of_pos _ (by simp [hp])] at h
      cases h
      simp only [List.map_cons, if_pos hp]
      exact List.find?_cons_of_pos _ (by simp [hp])
    · rw [List.find?_cons_of_neg _ (by simp [hp])] at h
      simp only [List.map_cons, if_neg hp]
      rw [List.find?_cons_of_neg _ (by simp [hp])]
      exact ih h

lemma importLog_find_after_append (l : List ImportLogRow) (path : String)
    (row : ImportLogRow) (hrow : row.file_path = path)
    (h : l.find? (fun r => r.file_path = path) = none) :
    (l ++ [row]).find? (fun r => r.file_path = path) = some row := by
  induction l with
  | nil => simp [List.find?_cons_of_pos, hrow]
  | cons a as ih =>
    by_cases hp : a.file_path = path
    · exfalso
      rw [List.find?_cons_of_pos _ (by simp [hp])] at h
      exact Option.noConfusion h
    · rw [List.find?_cons_of_neg _ (by simp [hp])] at h
      rw [List.cons_append, List.find?_cons_of_neg _ (by simp [hp])]
      exact ih h

lemma import_session_sets_hash (db : DB) (f : import_conversations.BulkFile)
    (pid : Nat) (psid : Option Nat)
    (h1 : import_conversations.bulkSkipsByHash db f = false)
    (h2 : ¬ import_conversations.parse_jsonl_file f.lines = []) :
    import_conversations.bulkSkipsByHash
      (import_conversations.import_session db f pid psid).1 f = true := by
  unfold import_conversations.import_session
  rw [if_neg (by simp [h1])]
  dsimp only
  rw [if_neg h2]
  cases hfind : db.sessions.find? fun s => s.uuid = sync_current.sessionUuidOfStem f.stem with
  | some s0 =>
    simp only [hfind]
    cases hlog : db.import_log.find? fun r => r.file_path = f.path with
    | some r0 =>
      simp only [hlog, import_conversations.bulkSkipsByHash, bulk_foldl_import_log]
      rw [importLog_find_after_update _ _ _ _ _ hlog]
      simp
    | none =>
      simp only [hlog, import_conversations.bulkSkipsByHash, bulk_foldl_import_log]
      rw [importLog_find_after_append _ f.path _ rfl (by simpa using hlog)]
      simp
  | none =>
    simp only [hfind]
    cases hlog : db.import_log.find? fun r => r.file_path = f.path with
    | some r0 =>
      simp only [hlog, import_conversations.bulkSkipsByHash, bulk_foldl_import_log]
      rw [importLog_find_after_update _ _ _ _ _ hlog]
      simp
    | none =>
      simp only [hlog, import_conversations.bulkSkipsByHash, bulk_foldl_import_log]
      rw [importLog_find_after_append _ f.path _ rfl (by simpa using hlog)]
      simp

lemma import_session_skips (db : DB) (f : import_conversations.BulkFile)
    (pid : Nat) (psid : Option Nat)
    (h : import_conversations.bulkSkipsByHash db f = true) :
    import_conversations.import_session db f pid psid = (db, .skipped, []) := by
  unfold import_conversations.import_session
  rw [if_pos h]

lemma import_session_skips_empty (db : DB) (f : import_conversations.BulkFile)
    (pid : Nat) (psid : Option Nat)
    (h1 : import_conversations.bulkSkipsByHash db f = false)
    (h2 : import_conversations.parse_jsonl_file f.lines = []) :
    import_conversations.import_session db f pid psid = (db, .skipped, []) := by
  unfold import_conversations.import_session
  rw [if_neg (by simp [h1])]
  dsimp only
  rw [if_pos h2]

/-- C5 (amended): the bulk import path is idempotent exactly as the claim
says — a second `import_session` call on the byte-identical file finds the
recorded MD5 in the import log, returns the skip sentinel, leaves the store
unchanged and executes no write statement at all.  The incremental sync
path has no hash check: it re-executes its rebuild (see the counterexample
for the writes it performs), although on the unchanged S1 file the store
state it commits is identical. -/
theorem C5_import_idempotent :
    (∀ (db : DB) (f : import_conversations.BulkFile) (pid : Nat) (psid : Option Nat),
      import_conversations.import_session
          (import_conversations.import_session db f pid psid).1 f pid psid =
        ((import_conversations.import_session db f pid psid).1,
          .skipped, [])) ∧
    ((sync_current.sync_session Scenario.dbS1 Scenario.s1SyncFile "-tmp-proj").1 =
      Scenario.dbS1) := by
  refine ⟨?_, by decide⟩
  intro db f pid psid
  by_cases h1 : import_conversations.bulkSkipsByHash db f = true
  · have e1 := import_session_skips db f pid psid h1
    rw [e1]
    exact import_session_skips db f pid psid h1
  · have h1' : import_conversations.bulkSkipsByHash db f = false := by
      simpa using h1
    by_cases h2 : import_conversations.parse_jsonl_file f.lines = []
    · have e1 := import_session_skips_empty db f pid psid h1' h2
      rw [e1]
      exact import_session_skips_empty db f pid psid h1' h2
    · exact import_session_skips _ f pid psid
        (import_session_sets_hash db f pid psid h1' h2)

/-- C5 witness: the bulk idempotence equation evaluated on the concrete S1
bulk file imported twice into an empty store. -/
theorem C5_import_idempotent_witness :
    import_conversations.import_session
        (import_conversations.import_session emptyDB Scenario.s1BulkFile 1 none).1
        Scenario.s1BulkFile 1 none =
      ((import_conversations.import_session emptyDB Scenario.s1BulkFile 1 none).1,
        .skipped, []) :=
  C5_import_idempotent.1 emptyDB Scenario.s1BulkFile 1 none

/-! ### Preservation lemmas for the sync pipeline -/

lemma projectPhase_rest (db : DB) (d : String) :
    (sync_current.projectPhase db d).1.sessions = db.sessions ∧
    (sync_current.projectPhase db d).1.messages = db.messages ∧
    (sync_current.projectPhase db d).1.branches = db.branches ∧
    (sync_current.projectPhase db d).1.branch_messages = db.branch_messages ∧
    (sync_current.projectPhase db d).1.import_log = db.import_log := by
  unfold sync_current.projectPhase
  dsimp only
  (repeat' split) <;> exact ⟨rfl, rfl, rfl, rfl, rfl⟩

lemma sessionUpsert_rest (db : DB) (u : String) (pid : Nat) (meta : memory_utils.SessionMeta) :
    (sync_current.sessionUpsert db u pid meta).1.projects = db.projects ∧
    (sync_current.sessionUpsert db u pid meta).1.messages = db.messages ∧
    (sync_current.sessionUpsert db u pid meta).1.branches = db.branches ∧
    (sync_current.sessionUpsert db u pid meta).1.branch_messages = db.branch_messages ∧
    (sync_current.sessionUpsert db u pid meta).1.import_log = db.import_log := by
  unfold sync_current.sessionUpsert
  dsimp only
  (repeat' split) <;> exact ⟨rfl, rfl, rfl, rfl, rfl⟩

lemma bmInsertStep_messages (bid : Nat) (msgIdOf : String → Option Nat)
    (acc : DB × List WriteOp) (u : String) :
    (sync_current.bmInsertStep bid msgIdOf acc u).1.messages = acc.1.messages := by
  unfold sync_current.bmInsertStep
  dsimp only
  (repeat' split) <;> rfl

lemma bmFold_messages (bid : Nat) (msgIdOf : String → Option Nat) (us : List String) :
    ∀ acc : DB × List WriteOp,
      ((us.foldl (sync_current.bmInsertStep bid msgIdOf) acc).1).messages = acc.1.messages := by
  induction us with
  | nil => intro acc; rfl
  | cons u rest ih => intro acc; rw [List.foldl_cons, ih, bmInsertStep_messages]

lemma upsertBranchRow_messages (sid : Nat) (exB : List (String × Nat))
    (br : memory_utils.BranchInfo) (bmMeta : memory_utils.SessionMeta)
    (xc : Nat) (files commits : List String) (db : DB) :
    (sync_current.upsertBranchRow sid exB br bmMeta xc files commits db).1.messages =
      db.messages := by
  unfold sync_current.upsertBranchRow
  dsimp only
  (repeat' split) <;> rfl

lemma processBranch_messages (sid : Nat) (exB : List (String × Nat))
    (msgs : List Entry) (msgIdOf : String → Option Nat)
    (acc : DB × List String × List WriteOp) (br : memory_utils.BranchInfo) :
    (sync_current.processBranch sid exB msgs msgIdOf acc br).1.messages =
      acc.1.messages := by
  unfold sync_current.processBranch
  dsimp only
  rw [bmFold_messages]
  dsimp only
  split <;> rw [upsertBranchRow_messages]

lemma branchFold_messages (sid : Nat) (exB : List (String × Nat))
    (msgs : List Entry) (msgIdOf : String → Option Nat)
    (bs : List memory_utils.BranchInfo) :
    ∀ acc : DB × List String × List WriteOp,
      ((bs.foldl (sync_current.processBranch sid exB msgs msgIdOf) acc).1).messages =
        acc.1.messages := by
  induction bs with
  | nil => intro acc; rfl
  | cons b rest ih => intro acc; rw [List.foldl_cons, ih, processBranch_messages]

lemma staleStep_messages (leaves : List String) (acc : DB × List WriteOp)
    (p : String × Nat) :
    (sync_current.staleStep leaves acc p).1.messages = acc.1.messages := by
  unfold sync_current.staleStep
  dsimp only
  (repeat' split) <;> rfl

lemma staleCleanup_messages (exB : List (String × Nat)) (leaves : List String) :
    ∀ acc : DB × List WriteOp,
      ((sync_current.staleBranchCleanup exB leaves acc).1).messages = acc.1.messages := by
  unfold sync_current.staleBranchCleanup
  induction exB with
  | nil => intro acc; rfl
  | cons p rest ih => intro acc; rw [List.foldl_cons, ih, staleStep_messages]

lemma insertMessagesGo_spec (sid : Nat) (msgs : List Entry) :
    ∀ (db : DB) (ex : List String) (cnt : Nat) (ops : List WriteOp),
      ∃ newRows : List MessageRow,
        (sync_current.insertMessagesGo sid msgs db ex cnt ops).1.messages =
          db.messages ++ newRows ∧
        (∀ r ∈ newRows, r.session_id = sid ∧
          ∀ v, r.uuid = some v →
            ∀ m ∈ db.messages, ¬ (m.session_id = sid ∧ m.uuid = some v)) ∧
        (sync_current.insertMessagesGo sid msgs db ex cnt ops).1.projects = db.projects ∧
        (sync_current.insertMessagesGo sid msgs db ex cnt ops).1.sessions = db.sessions ∧
        (sync_current.insertMessagesGo sid msgs db ex cnt ops).1.branches = db.branches ∧
        (sync_current.insertMessagesGo sid msgs db ex cnt ops).1.branch_messages =
          db.branch_messages ∧
        (sync_current.insertMessagesGo sid msgs db ex cnt ops).1.import_log =
          db.import_log := by
  induction msgs with
  | nil =>
    intro db ex cnt ops
    exact ⟨[], by simp [sync_current.insertMessagesGo], by simp, rfl, rfl, rfl, rfl, rfl⟩
  | cons e rest ih =>
    intro db ex cnt ops
    rw [sync_current.insertMessagesGo]
    by_cases h1 : ¬ (e.type? = some "user" ∨ e.type? = some "assistant")
    · rw [if_pos h1]; exact ih db ex cnt ops
    · rw [if_neg h1]
      by_cases h2 : e.type? = some "user" ∧ memory_utils.is_tool_result e.content = true
      · rw [if_pos h2]; exact ih db ex cnt ops
      · rw [if_neg h2]
        dsimp only
        by_cases h3 : (memory_utils.extract_text_content e.content).1 = ""
        · rw [if_pos h3]; exact ih db ex cnt ops
        · rw [if_neg h3]
          by_cases h4 : (match truthyStr e.uuid? with
            | some u => ex.contains u
            | none => false) = true
          · rw [if_pos h4]; exact ih db ex cnt ops
          · rw [if_neg h4]
            by_cases h5 : (match e.uuid? with
              | some v => db.messages.any fun m => m.session_id = sid ∧ m.uuid = some v
              | none => false) = true
            · rw [if_pos h5]; exact ih db ex cnt ops
            · rw [if_neg h5]
              set row : MessageRow :=
                { id := nextRowId (db.messages.map (·.id)), session_id := sid,
                  uuid := e.uuid?, parent_uuid := e.parentUuid?,
                  timestamp := e.timestamp?, role := (e.type?).getD "",
                  content := (memory_utils.extract_text_content e.content).1,
                  tool_summary := (memory_utils.extract_text_content e.content).2.2.2,
                  has_tool_use := (memory_utils.extract_text_content e.content).2.1,
                  has_thinking := (memory_utils.extract_text_content e.content).2.2.1 }
                with hrow
              obtain ⟨newRows, hmsgs, hprops, hp, hs, hb, hbm, hil⟩ :=
                ih { db with messages := db.messages ++ [row] }
                  (match truthyStr e.uuid? with
                    | some u => ex ++ [u]
                    | none => ex) (cnt + 1) (ops ++ [.insertRow "messages"])
              refine ⟨row :: newRows, ?_, ?_, by simpa using hp, by simpa using hs,
                by simpa using hb, by simpa using hbm, by simpa using hil⟩
              · rw [hmsgs]; simp
              · intro r hr
                rcases List.mem_cons.mp hr with hr | hr
                · subst hr
                  refine ⟨rfl, ?_⟩
                  intro v hv m hm hcol
                  apply h5
                  have : row.uuid = e.uuid? := rfl
                  rw [this] at hv
                  rw [hv]
                  simp only [List.any_eq_true]
                  exact ⟨m, hm, by simpa using hcol⟩
                · obtain ⟨hr1, hr2⟩ := hprops r hr
                  refine ⟨hr1, ?_⟩
                  intro v hv m hm
                  exact hr2 v hv m (by simp [hm])

lemma sync_session_messages_spec (db : DB) (file : sync_current.SyncFile) (d : String) :
    ∃ (sid : Nat) (newRows : List MessageRow),
      (∀ r ∈ newRows, r.session_id = sid ∧
        ∀ v, r.uuid = some v →
          ∀ m ∈ db.messages, ¬ (m.session_id = sid ∧ m.uuid = some v)) ∧
      ∀ m2 ∈ (sync_current.sync_session db file d).1.messages,
        m2 ∈ db.messages ++ newRows := by
  have hpp := (projectPhase_rest db d).2.1
  unfold sync_current.sync_session
  dsimp only
  split
  · refine ⟨0, [], by simp, fun m2 hm2 => ?_⟩
    rw [hpp] at hm2
    simpa using hm2
  · split
    · refine ⟨0, [], by simp, fun m2 hm2 => ?_⟩
      rw [hpp] at hm2
      simpa using hm2
    · split
      · refine ⟨0, [], by simp, fun m2 hm2 => ?_⟩
        rw [hpp] at hm2
        simpa using hm2
      · set dbp := (sync_current.projectPhase db d).1 with hdbp
        set su := sync_current.sessionUpsert dbp (sync_current.sessionUuidOfStem file.stem)
          (((dbp.projects.find? fun p =>
            p.path = sync_current.decodeProjectPath d).map (·.id)).getD 0)
          (memory_utils.extract_session_metadata
            (memory_utils.parse_all_with_uuids file.lines)) with hsu
        have hsum : su.1.messages = db.messages := by
          rw [(sessionUpsert_rest dbp _ _ _).2.1, hpp]
        obtain ⟨newRows, hmsgs, hprops, _, _, _, _, _⟩ :=
          insertMessagesGo_spec su.2.1 (memory_utils.parse_jsonl_file file.lines)
            su.1
            ((su.1.messages.filter fun m =>
              m.session_id = su.2.1 ∧ m.uuid.isSome).filterMap (·.uuid))
            0 ((sync_current.projectPhase db d).2 ++ [su.2.2])
        refine ⟨su.2.1, newRows, ?_, ?_⟩
        · intro r hr
          obtain ⟨h1, h2⟩ := hprops r hr
          exact ⟨h1, fun v hv m hm => h2 v hv m (by rw [hsum]; exact hm)⟩
        · intro m2 hm2
          have hm2b := List.mem_of_mem_filter hm2
          rw [staleCleanup_messages, branchFold_messages] at hm2b
          dsimp only at hm2b
          rw [hmsgs, hsum] at hm2b
          exact hm2b

/-! ### Bulk import characterization (for re-import equivalence) -/

/-- A message row without its surrogate keys (rowid and session rowid). -/
def msgProj (m : MessageRow) :
    Option String × Option String × Option String × String × String ×
      Option (List (String × Nat)) × Bool × Bool :=
  (m.uuid, m.parent_uuid, m.timestamp, m.role, m.content, m.tool_summary,
    m.has_tool_use, m.has_thinking)

/-- The projected message rows the bulk insert loop produces from a list of
entries, independent of any store state. -/
def bulkRowProjs (entries : List Entry) :
    List (Option String × Option String × Option String × String × String ×
      Option (List (String × Nat)) × Bool × Bool) :=
  entries.filterMap fun e =>
    if ¬ (e.type? = some "user" ∨ e.type? = some "assistant") then none
    else if e.type? = some "user" ∧ import_conversations.is_tool_result e.content then none
    else
      let r := import_conversations.extract_text_content e.content
      if r.1 = "" then none
      else some (e.uuid?, e.parentUuid?, e.timestamp?, (e.type?).getD "", r.1,
        (none : Option (List (String × Nat))), r.2.1, r.2.2)

/-- The projected message rows of the session identified by `suuid`. -/
def sessionMsgsProj (db : DB) (suuid : String) :
    List (Option String × Option String × Option String × String × String ×
      Option (List (String × Nat)) × Bool × Bool) :=
  match db.sessions.find? fun s => s.uuid = suuid with
  | none => []
  | some s => (db.messages.filter fun m => m.session_id = s.id).map msgProj

lemma bulk_foldl_msgs (sid : Nat) (entries : List Entry) :
    ∀ st : import_conversations.BulkLoopState,
      (((entries.foldl (import_conversations.bulkStep sid) st).db).messages.filter
          fun m => m.session_id = sid).map msgProj =
        ((st.db.messages.filter fun m => m.session_id = sid).map msgProj) ++
          bulkRowProjs entries := by
  induction entries with
  | nil => intro st; simp [bulkRowProjs]
  | cons e rest ih =>
    intro st
    rw [List.foldl_cons]
    by_cases h1 : ¬ (e.type? = some "user" ∨ e.type? = some "assistant")
    · have hstep : import_conversations.bulkStep sid st e = st := by
        unfold import_conversations.bulkStep
        rw [if_pos h1]
      have hbr : bulkRowProjs (e :: rest) = bulkRowProjs rest := by
        simp only [bulkRowProjs, List.filterMap_cons]
        rw [if_pos h1]
      rw [hstep, hbr]
      exact ih st
    · by_cases h2 : e.type? = some "user" ∧ import_conversations.is_tool_result e.content = true
      · have hstep : import_conversations.bulkStep sid st e = st := by
          unfold import_conversations.bulkStep
          rw [if_neg h1, if_pos h2]
        have hbr : bulkRowProjs (e :: rest) = bulkRowProjs rest := by
          simp only [bulkRowProjs, List.filterMap_cons]
          rw [if_neg h1, if_pos h2]
        rw [hstep, hbr]
        exact ih st
      · by_cases h3 : (import_conversations.extract_text_content e.content).1 = ""
        · have hstep : import_conversations.bulkStep sid st e = st := by
            unfold import_conversations.bulkStep
            rw [if_neg h1, if_neg h2]
            dsimp only
            rw [if_pos h3]
          have hbr : bulkRowProjs (e :: rest) = bulkRowProjs rest := by
            simp only [bulkRowProjs, List.filterMap_cons]
            rw [if_neg h1, if_neg h2]
            rw [if_pos h3]
          rw [hstep, hbr]
          exact ih st
        · set row : MessageRow :=
            { id := nextRowId (st.db.messages.map (·.id)), session_id := sid,
              uuid := e.uuid?, parent_uuid := e.parentUuid?,
              timestamp := e.timestamp?, role := (e.type?).getD "",
              content := (import_conversations.extract_text_content e.content).1,
              tool_summary := none,
              has_tool_use := (import_conversations.extract_text_content e.content).2.1,
              has_thinking := (import_conversations.extract_text_content e.content).2.2 }
            with hrow
          have hbr : bulkRowProjs (e :: rest) =
              msgProj row :: bulkRowProjs rest := by
            simp only [bulkRowProjs, List.filterMap_cons]
            rw [if_neg h1, if_neg h2]
            rw [if_neg h3]
            rfl
          have hmsgs : (import_conversations.bulkStep sid st e).db.messages =
              st.db.messages ++ [row] := by
            unfold import_conversations.bulkStep
            rw [if_neg h1, if_neg h2]
            dsimp only
            rw [if_neg h3]
            (repeat' split) <;> rfl
          have hfilter : ((import_conversations.bulkStep sid st e).db.messages.filter
              fun m => m.session_id = sid) =
              (st.db.messages.filter fun m => m.session_id = sid) ++ [row] := by
            rw [hmsgs, List.filter_append]
            simp [row]
          have ihx := ih (import_conversations.bulkStep sid st e)
          rw [hfilter] at ihx
          rw [ihx, hbr]
          simp

lemma find?_map_pres {α : Type _} (p : α → Bool) (g : α → α)
    (hg : ∀ a, p (g a) = p a) (l : List α) (a0 : α) (h : l.find? p = some a0) :
    (l.map g).find? p = some (g a0) := by
  induction l with
  | nil => simp at h
  | cons a as ih =>
    cases hp : p a with
    | true =>
      rw [List.find?_cons_of_pos _ hp] at h
      cases h
      rw [List.map_cons, List.find?_cons_of_pos _ (by rw [hg]; exact hp)]
    | false =>
      rw [List.find?_cons_of_neg _ (by simp [hp])] at h
      rw [List.map_cons, List.find?_cons_of_neg _ (by simp [hg, hp])]
      exact ih h

lemma find?_append_none {α : Type _} (p : α → Bool) (l : List α) (x : α)
    (hl : l.find? p = none) (hx : p x = true) :
    (l ++ [x]).find? p = some x := by
  induction l with
  | nil => simpa using List.find?_cons_of_pos ([] : List α) hx
  | cons a as ih =>
    have ha : p a = false := by
      cases hpa : p a
      · rfl
      · rw [List.find?_cons_of_pos _ hpa] at hl
        exact Option.noConfusion hl
    rw [List.find?_cons_of_neg _ (by simp [ha])] at hl
    rw [List.cons_append, List.find?_cons_of_neg _ (by simp [ha])]
    exact ih hl

lemma bulkStep_rest (sid : Nat) (st : import_conversations.BulkLoopState) (e : Entry) :
    (import_conversations.bulkStep sid st e).db.projects = st.db.projects ∧
    (import_conversations.bulkStep sid st e).db.sessions = st.db.sessions ∧
    (import_conversations.bulkStep sid st e).db.branches = st.db.branches ∧
    (import_conversations.bulkStep sid st e).db.branch_messages = st.db.branch_messages := by
  unfold import_conversations.bulkStep
  dsimp only
  (repeat' split) <;> exact ⟨rfl, rfl, rfl, rfl⟩

lemma bulk_foldl_rest (sid : Nat) (entries : List Entry) :
    ∀ st : import_conversations.BulkLoopState,
      ((entries.foldl (import_conversations.bulkStep sid) st).db).projects = st.db.projects ∧
      ((entries.foldl (import_conversations.bulkStep sid) st).db).sessions = st.db.sessions ∧
      ((entries.foldl (import_conversations.bulkStep sid) st).db).branches = st.db.branches ∧
      ((entries.foldl (import_conversations.bulkStep sid) st).db).branch_messages =
        st.db.branch_messages := by
  induction entries with
  | nil => intro st; exact ⟨rfl, rfl, rfl, rfl⟩
  | cons e rest ih =>
    intro st
    rw [List.foldl_cons]
    obtain ⟨i1, i2, i3, i4⟩ := ih (import_conversations.bulkStep sid st e)
    obtain ⟨s1, s2, s3, s4⟩ := bulkStep_rest sid st e
    exact ⟨i1.trans s1, i2.trans s2, i3.trans s3, i4.trans s4⟩

lemma filter_ne_then_eq (l : List MessageRow) (sid : Nat) :
    ((l.filter fun m => m.session_id ≠ sid).filter fun m => m.session_id = sid) = [] := by
  rw [List.filter_filter]
  apply List.filter_eq_nil_iff.mpr
  intro m _
  by_cases h : m.session_id = sid <;> simp [h]

lemma bulk_import_characterization (db : DB) (f : import_conversations.BulkFile)
    (pid : Nat) (psid : Option Nat)
    (h1 : import_conversations.bulkSkipsByHash db f = false)
    (h2 : ¬ import_conversations.parse_jsonl_file f.lines = []) :
    sessionMsgsProj (import_conversations.import_session db f pid psid).1
        (sync_current.sessionUuidOfStem f.stem) =
      bulkRowProjs (import_conversations.parse_jsonl_file f.lines) ∧
    (import_conversations.import_session db f pid psid).1.branches = db.branches ∧
    (import_conversations.import_session db f pid psid).1.branch_messages =
      db.branch_messages := by
  unfold import_conversations.import_session
  rw [if_neg (by simp [h1])]
  dsimp only
  rw [if_neg h2]
  cases hfind : db.sessions.find? fun s =>
      s.uuid = sync_current.sessionUuidOfStem f.stem with
  | some s0 =>
    simp only [hfind]
    cases hlog : db.import_log.find? fun r => r.file_path = f.path with
    | some r0 =>
      simp only [hlog]
      refine ⟨?_, ?_, ?_⟩
      · unfold sessionMsgsProj
        dsimp only
        rw [(bulk_foldl_rest _ _ _).2.1]
        dsimp only
        rw [find?_map_pres _ _ ?hg2 _ _
          (find?_map_pres _ _ ?hg1 _ _ hfind)]
        case hg1 =>
          intro a
          by_cases ha : a.uuid = sync_current.sessionUuidOfStem f.stem <;> simp [ha]
        case hg2 =>
          intro a
          by_cases ha : a.id = s0.id <;> simp [ha]
        · dsimp only
          have hid : (if s0.uuid = sync_current.sessionUuidOfStem f.stem then True else True) = True := by simp
          have hps0 : s0.uuid = sync_current.sessionUuidOfStem f.stem := by
            have := List.find?_some hfind
            simpa using this
          rw [if_pos hps0]
          dsimp only
          rw [if_pos rfl]
          dsimp only
          rw [bulk_foldl_msgs]
          rw [filter_ne_then_eq]
          simp
      · rw [(bulk_foldl_rest _ _ _).2.2.1]
      · rw [(bulk_foldl_rest _ _ _).2.2.2]
    | none =>
      simp only [hlog]
      refine ⟨?_, ?_, ?_⟩
      · unfold sessionMsgsProj
        dsimp only
        rw [(bulk_foldl_rest _ _ _).2.1]
        dsimp only
        rw [find?_map_pres _ _ ?hg2b _ _
          (find?_map_pres _ _ ?hg1b _ _ hfind)]
        case hg1b =>
          intro a
          by_cases ha : a.uuid = sync_current.sessionUuidOfStem f.stem <;> simp [ha]
        case hg2b =>
          intro a
          by_cases ha : a.id = s0.id <;> simp [ha]
        · dsimp only
          have hps0 : s0.uuid = sync_current.sessionUuidOfStem f.stem := by
            have := List.find?_some hfind
            simpa using this
          rw [if_pos hps0]
          dsimp only
          rw [if_pos rfl]
          dsimp only
          rw [bulk_foldl_msgs]
          rw [filter_ne_then_eq]
          simp
      · rw [(bulk_foldl_rest _ _ _).2.2.1]
      · rw [(bulk_foldl_rest _ _ _).2.2.2]
  | none =>
    simp only [hfind]
    cases hlog : db.import_log.find? fun r => r.file_path = f.path with
    | some r0 =>
      simp only [hlog]
      refine ⟨?_, ?_, ?_⟩
      · unfold sessionMsgsProj
        dsimp only
        rw [(bulk_foldl_rest _ _ _).2.1]
        dsimp only
        rw [find?_map_pres _ _ ?hg2c _ _
          (find?_append_none _ _ _ hfind (by simp))]
        case hg2c =>
          intro a
          by_cases ha : a.id = nextRowId (db.sessions.map (·.id)) <;> simp [ha]
        · dsimp only
          rw [if_pos rfl]
          dsimp only
          rw [bulk_foldl_msgs]
          rw [filter_ne_then_eq]
          simp
      · rw [(bulk_foldl_rest _ _ _).2.2.1]
      · rw [(bulk_foldl_rest _ _ _).2.2.2]
    | none =>
      simp only [hlog]
      refine ⟨?_, ?_, ?_⟩
      · unfold sessionMsgsProj
        dsimp only
        rw [(bulk_foldl_rest _ _ _).2.1]
        dsimp only
        rw [find?_map_pres _ _ ?hg2d _ _
          (find?_append_none _ _ _ hfind (by simp))]
        case hg2d =>
          intro a
          by_cases ha : a.id = nextRowId (db.sessions.map (·.id)) <;> simp [ha]
        · dsimp only
          rw [if_pos rfl]
          dsimp only
          rw [bulk_foldl_msgs]
          rw [filter_ne_then_eq]
          simp
      · rw [(bulk_foldl_rest _ _ _).2.2.1]
      · rw [(bulk_foldl_rest _ _ _).2.2.2]

/-- The changed S1 log as the bulk importer sees it (same path, new hash). -/
def Scenario.s1ChangedBulkFile : import_conversations.BulkFile :=
  { path := "/proj/sess1.jsonl", stem := "sess1", hash := "md5-s1v2",
    lines := Scenario.s1ChangedFile.lines }

/-- The message row of uuid `A` as stored by the first sync of S1. -/
def Scenario.rowA : MessageRow :=
  { id := 1, session_id := 1, uuid := some "A", parent_uuid := none,
    timestamp := some "2025-01-01T10:00:00Z", role := "user", content := "hi",
    tool_summary := none, has_tool_use := false, has_thinking := false }

/-- C4 (amended): the incremental sync path never rewrites an existing
message row — any row of the store that shares `(session, uuid)` with a
stored message is that unchanged stored message, so a message whose text
changed in the log keeps the old text (see the counterexample).  The
bulk path does rewrite wholesale: re-importing a changed file into a
bulk-only store (no branch tables populated) leaves the session's
(branches, branch-membership, messages) rows equal, up to surrogate row
ids, to a fresh import of the same file into an empty database. -/
theorem C4_reimport_equivalence :
    (∀ (db : DB) (file : sync_current.SyncFile) (dirName : String) (m0 : MessageRow),
      WFStore db → m0 ∈ db.messages → m0.uuid.isSome →
      ∀ m2 ∈ (sync_current.sync_session db file dirName).1.messages,
        m2.session_id = m0.session_id → m2.uuid = m0.uuid → m2 = m0) ∧
    (∀ (db : DB) (f : import_conversations.BulkFile) (pid pid2 : Nat)
        (psid psid2 : Option Nat),
      db.branches = [] → db.branch_messages = [] →
      import_conversations.bulkSkipsByHash db f = false →
      ¬ import_conversations.parse_jsonl_file f.lines = [] →
      sessionMsgsProj (import_conversations.import_session db f pid psid).1
          (sync_current.sessionUuidOfStem f.stem) =
        sessionMsgsProj (import_conversations.import_session emptyDB f pid2 psid2).1
          (sync_current.sessionUuidOfStem f.stem) ∧
      (import_conversations.import_session db f pid psid).1.branches =
        (import_conversations.import_session emptyDB f pid2 psid2).1.branches ∧
      (import_conversations.import_session db f pid psid).1.branch_messages =
        (import_conversations.import_session emptyDB f pid2 psid2).1.branch_messages) := by
  constructor
  · intro db file dirName m0 hwf hm0 hsome m2 hm2 hs hu
    obtain ⟨sid, newRows, hprops, hmem⟩ := sync_session_messages_spec db file dirName
    rcases List.mem_append.mp (hmem m2 hm2) with hold | hnew
    · exact hwf.messageKeysAtMostOne m2 hold m0 hm0 hs (by rw [hu]; exact hsome) hu
    · obtain ⟨hr1, hr2⟩ := hprops m2 hnew
      obtain ⟨u, hus⟩ := Option.isSome_iff_exists.mp hsome
      exact absurd ⟨hs.symm.trans hr1, hus⟩ (hr2 u (by rw [hu, hus]) m0 hm0)
  · intro db f pid pid2 psid psid2 hbr hbm h1 h2
    have hc1 := bulk_import_characterization db f pid psid h1 h2
    have hc2 := bulk_import_characterization emptyDB f pid2 psid2 (by rfl) h2
    refine ⟨hc1.1.trans hc2.1.symm, ?_, ?_⟩
    · rw [hc1.2.1, hc2.2.1, hbr]
      rfl
    · rw [hc1.2.2, hc2.2.2, hbm]
      rfl

/-- C4 witness: the sync half applied to the stored S1 message `A` and the
changed S1 file, and the bulk half applied to a re-import of the changed S1
file over a prior bulk import, both at concrete inputs. -/
theorem C4_reimport_equivalence_witness :
    (Scenario.rowA = Scenario.rowA) ∧
    (sessionMsgsProj
        (import_conversations.import_session
          (import_conversations.import_session emptyDB Scenario.s1BulkFile 1 none).1
          Scenario.s1ChangedBulkFile 1 none).1
        (sync_current.sessionUuidOfStem Scenario.s1ChangedBulkFile.stem) =
      sessionMsgsProj
        (import_conversations.import_session emptyDB Scenario.s1ChangedBulkFile 1 none).1
        (sync_current.sessionUuidOfStem Scenario.s1ChangedBulkFile.stem)) := by
  constructor
  · exact C4_reimport_equivalence.1 Scenario.dbS1 Scenario.s1ChangedFile "-tmp-proj"
      Scenario.rowA ⟨by decide, by decide, by decide, by decide, by decide⟩
      (by decide) (by decide) Scenario.rowA (by decide) (by decide) (by decide)
  · exact (C4_reimport_equivalence.2
      (import_conversations.import_session emptyDB Scenario.s1BulkFile 1 none).1
      Scenario.s1ChangedBulkFile 1 1 none none
      (by decide) (by decide) (by decide) (by decide)).1

/-! ### Branch-table tracking through the sync branch loop -/

lemma init_le_foldl_max : ∀ (l : List Nat) (init : Nat), init ≤ l.foldl max init := by
  intro l
  induction l with
  | nil => intro init; exact le_refl _
  | cons x xs ih =>
    intro init
    exact le_trans (le_max_left init x) (ih (max init x))

lemma mem_le_foldl_max : ∀ (l : List Nat) (a init : Nat), a ∈ l → a ≤ l.foldl max init := by
  intro l
  induction l with
  | nil => intro a init h; simp at h
  | cons x xs ih =>
    intro a init h
    rcases List.mem_cons.mp h with h | h
    · subst h
      exact le_trans (le_max_right init a) (init_le_foldl_max xs (max init a))
    · exact ih a (max init x) h

lemma lt_nextRowId (l : List Nat) (a : Nat) (h : a ∈ l) : a < nextRowId l := by
  unfold nextRowId
  exact Nat.lt_succ_of_le (mem_le_foldl_max l a 0 h)

lemma lookupLastPair_mem (l : List (String × Nat)) (k : String) (v : Nat)
    (h : lookupLastPair l k = some v) : (k, v) ∈ l := by
  unfold lookupLastPair at h
  rw [List.getLast?_map] at h
  cases hl : (l.filter fun p => p.1 = k).getLast? with
  | none => rw [hl] at h; simp at h
  | some p =>
    rw [hl] at h
    have hv : p.2 = v := by simpa using h
    subst hv
    have hp : p ∈ l.filter fun q => q.1 = k := by
      rcases List.mem_getLast?_eq_getLast (Option.mem_def.mpr hl) with ⟨hne, hEq⟩
      rw [hEq]
      exact List.getLast_mem hne
    have := List.mem_filter.mp hp
    have hp1 : p.1 = k := by simpa using this.2
    have : p = (k, p.2) := by
      cases p
      simpa using hp1
    rw [this] at hp
    exact List.mem_of_mem_filter hp

lemma lookupLastPair_ne_of_ne (l : List (String × Nat)) (k1 k2 : String) (v1 v2 : Nat)
    (hnd : (l.map (·.2)).Nodup) (hk : k1 ≠ k2)
    (h1 : lookupLastPair l k1 = some v1) (h2 : lookupLastPair l k2 = some v2) :
    v1 ≠ v2 := by
  intro hv
  have hm1 := lookupLastPair_mem l k1 v1 h1
  have hm2 := lookupLastPair_mem l k2 v2 h2
  have := List.inj_on_of_nodup_map hnd hm1 hm2 (by simpa using hv)
  exact hk (by simpa using congrArg Prod.fst this)

lemma filter_eq_singleton_of {α : Type _} (l : List α) (p : α → Bool) (a : α)
    (hnd : l.Nodup) (ha : a ∈ l) (hpa : p a = true)
    (huniq : ∀ x ∈ l, p x = true → x = a) : l.filter p = [a] := by
  induction l with
  | nil => simp at ha
  | cons x xs ih =>
    rcases List.mem_cons.mp ha with hax | hax
    · subst hax
      rw [List.filter_cons_of_pos hpa]
      have hxs : xs.filter p = [] := by
        apply List.filter_eq_nil_iff.mpr
        intro y hy hpy
        have := huniq y (List.mem_cons_of_mem _ hy) hpy
        subst this
        exact (List.nodup_cons.mp hnd).1 hy
      rw [hxs]
    · have hxa : x ≠ a := by
        intro hxa
        subst hxa
        exact (List.nodup_cons.mp hnd).1 hax
      have hpx : p x = false := by
        cases hpx : p x
        · rfl
        · exact absurd (huniq x (List.mem_cons_self x xs) hpx) hxa
      rw [List.filter_cons_of_neg (by simp [hpx])]
      exact ih (List.nodup_cons.mp hnd).2 hax
        (fun y hy hpy => huniq y (List.mem_cons_of_mem _ hy) hpy)

lemma bmInsertStep_branches (bid : Nat) (msgIdOf : String → Option Nat)
    (acc : DB × List WriteOp) (u : String) :
    (sync_current.bmInsertStep bid msgIdOf acc u).1.branches = acc.1.branches := by
  unfold sync_current.bmInsertStep
  (repeat' split) <;> rfl

lemma bmFold_branches (bid : Nat) (msgIdOf : String → Option Nat) (us : List String) :
    ∀ acc : DB × List WriteOp,
      ((us.foldl (sync_current.bmInsertStep bid msgIdOf) acc).1).branches =
        acc.1.branches := by
  induction us with
  | nil => intro acc; rfl
  | cons u rest ih => intro acc; rw [List.foldl_cons, ih, bmInsertStep_branches]

lemma bmFold_bm_superset (bid : Nat) (msgIdOf : String → Option Nat) (us : List String) :
    ∀ (acc : DB × List WriteOp) (p : Nat × Nat), p ∈ acc.1.branch_messages →
      p ∈ ((us.foldl (sync_current.bmInsertStep bid msgIdOf) acc).1).branch_messages := by
  induction us with
  | nil => intro acc p h; exact h
  | cons u rest ih =>
    intro acc p h
    rw [List.foldl_cons]
    apply ih
    unfold sync_current.bmInsertStep
    (repeat' split) <;> simp_all

lemma processBranch_leaves (sid : Nat) (exB : List (String × Nat)) (msgs : List Entry)
    (msgIdOf : String → Option Nat) (acc : DB × List String × List WriteOp)
    (br : memory_utils.BranchInfo) :
    (sync_current.processBranch sid exB msgs msgIdOf acc br).2.1 =
      acc.2.1 ++ [br.leaf_uuid] := rfl

lemma branchFold_leaves (sid : Nat) (exB : List (String × Nat)) (msgs : List Entry)
    (msgIdOf : String → Option Nat) (bs : List memory_utils.BranchInfo) :
    ∀ acc : DB × List String × List WriteOp,
      ((bs.foldl (sync_current.processBranch sid exB msgs msgIdOf) acc).2.1) =
        acc.2.1 ++ bs.map (·.leaf_uuid) := by
  induction bs with
  | nil => intro acc; simp
  | cons b rest ih =>
    intro acc
    rw [List.foldl_cons, ih, processBranch_leaves]
    simp
lemma upsertBranchRow_shape (sid : Nat) (exB : List (String × Nat))
    (br : memory_utils.BranchInfo) (bmMeta : memory_utils.SessionMeta)
    (xc : Nat) (files commits : List String) (db : DB) :
    (∃ (bid : Nat) (g : BranchRow → BranchRow),
      sync_current.upsertBranchRow sid exB br bmMeta xc files commits db =
        ({ db with branches := db.branches.map g }, bid, true) ∧
      lookupLastPair exB br.leaf_uuid = some bid ∧
      (∀ row : BranchRow, (g row).id = row.id ∧ (g row).session_id = row.session_id ∧
        (g row).leaf_uuid = row.leaf_uuid) ∧
      (∀ row : BranchRow, row.id = bid → (g row).is_active = br.is_active) ∧
      (∀ row : BranchRow, row.id ≠ bid → g row = row)) ∨
    (∃ (bid : Nat) (t0 : BranchRow),
      sync_current.upsertBranchRow sid exB br bmMeta xc files commits db =
        ({ db with branches := db.branches ++ [t0] }, bid, false) ∧
      lookupLastPair exB br.leaf_uuid = none ∧
      bid = nextRowId (db.branches.map (·.id)) ∧
      t0.id = bid ∧ t0.session_id = sid ∧ t0.leaf_uuid = br.leaf_uuid ∧
      t0.is_active = br.is_active) := by
  unfold sync_current.upsertBranchRow
  cases hlp : lookupLastPair exB br.leaf_uuid with
  | some bid =>
    left
    refine ⟨bid, _, rfl, rfl, ?_, ?_, ?_⟩
    · intro row
      by_cases hr : row.id = bid <;> simp [hr]
    · intro row hr
      simp [hr]
    · intro row hr
      simp [hr]
  | none =>
    right
    exact ⟨_, _, rfl, rfl, rfl, rfl, rfl, rfl, rfl⟩

lemma processBranch_branches_shape (sid : Nat) (exB : List (String × Nat))
    (msgs : List Entry) (msgIdOf : String → Option Nat)
    (acc : DB × List String × List WriteOp) (br : memory_utils.BranchInfo) :
    ∃ (bid : Nat) (g : BranchRow → BranchRow) (tail : List BranchRow),
      (sync_current.processBranch sid exB msgs msgIdOf acc br).1.branches =
        acc.1.branches.map g ++ tail ∧
      (∀ row : BranchRow, (g row).id = row.id ∧ (g row).session_id = row.session_id ∧
        (g row).leaf_uuid = row.leaf_uuid) ∧
      (∀ row : BranchRow, row.id ≠ bid → g row =
        (if br.is_active = true ∧ row.session_id = sid ∧ row.is_active = true then
          { row with is_active := false } else row)) ∧
      ((lookupLastPair exB br.leaf_uuid = some bid ∧ tail = [] ∧
          (∀ row : BranchRow, row.id = bid → (g row).is_active = br.is_active)) ∨
        (lookupLastPair exB br.leaf_uuid = none ∧
          bid = nextRowId (acc.1.branches.map (·.id)) ∧
          ∃ t0 : BranchRow, tail = [t0] ∧ t0.id = bid ∧ t0.session_id = sid ∧
            t0.leaf_uuid = br.leaf_uuid ∧ t0.is_active = br.is_active)) := by
  unfold sync_current.processBranch
  dsimp only
  rw [bmFold_branches]
  dsimp only
  rcases upsertBranchRow_shape sid exB br
      (memory_utils.extract_session_metadata (sync_current.branchMsgsOf msgs br))
      (memory_utils.compute_branch_metadata (sync_current.branchMsgsOf msgs br)).1
      (memory_utils.compute_branch_metadata (sync_current.branchMsgsOf msgs br)).2.1
      (memory_utils.compute_branch_metadata (sync_current.branchMsgsOf msgs br)).2.2
      acc.1 with
    ⟨bid, g0, hup, hlp, hpres, hbid, hother⟩ | ⟨bid, t0, hup, hlp, hbid, ht0id, ht0s, ht0l, ht0a⟩
  · rw [hup]
    dsimp only
    by_cases hact : br.is_active = true
    · rw [if_pos hact]
      dsimp only
      refine ⟨bid, fun b => if (g0 b).session_id = sid ∧ (g0 b).id ≠ bid ∧
          (g0 b).is_active = true then { g0 b with is_active := false } else g0 b,
        [], ?_, ?_, ?_, Or.inl ⟨hlp, rfl, ?_⟩⟩
      · rw [List.map_map, List.append_nil]
        rfl
      · intro row
        refine ⟨?_, ?_, ?_⟩ <;>
          · dsimp only [Function.comp_apply]
            split <;> simp [hpres row]
      · intro row hr
        dsimp only [Function.comp_apply]
        rw [hother row hr]
        by_cases hs : row.session_id = sid <;> by_cases ha : row.is_active = true <;>
          simp [hr, hs, ha, hact]
      · intro row hr
        dsimp only [Function.comp_apply]
        have h1 := hbid row hr
        have h2 := (hpres row).1
        have h3 : ¬ ((g0 row).session_id = sid ∧ (g0 row).id ≠ bid ∧
            (g0 row).is_active = true) := by
          intro h
          exact h.2.1 (by rw [h2, hr])
        rw [if_neg h3]
        exact h1
    · rw [if_neg hact]
      refine ⟨bid, g0, [], ?_, hpres, ?_, Or.inl ⟨hlp, rfl, hbid⟩⟩
      · rw [List.append_nil]
      · intro row hr
        have : ¬ (br.is_active = true ∧ row.session_id = sid ∧ row.is_active = true) := by
          intro h; exact hact h.1
        rw [if_neg this]
        exact hother row hr
  · rw [hup]
    dsimp only
    by_cases hact : br.is_active = true
    · rw [if_pos hact]
      dsimp only
      rw [List.map_append]
      refine ⟨bid, _, _, rfl, ?_, ?_, Or.inr ⟨hlp, hbid, ?_⟩⟩
      · intro row
        split <;> simp
      · intro row hr
        by_cases hs : row.session_id = sid <;> by_cases ha : row.is_active = true <;>
          simp [hr, hs, ha, hact]
      · refine ⟨_, rfl, ?_, ?_, ?_, ?_⟩
        · simp [ht0id]
        · simp [ht0id, ht0s]
        · simp [ht0id, ht0l]
        · simp [ht0id, ht0a, hact]
    · rw [if_neg hact]
      refine ⟨bid, id, [t0], ?_, ?_, ?_, Or.inr ⟨hlp, hbid, t0, rfl, ht0id, ht0s, ht0l, ht0a⟩⟩
      · rw [List.map_id]
      · intro row; exact ⟨rfl, rfl, rfl⟩
      · intro row hr
        have : ¬ (br.is_active = true ∧ row.session_id = sid ∧ row.is_active = true) := by
          intro h; exact hact h.1
        rw [if_neg this]
        rfl

lemma filter_map_eq_of_fixed {α : Type _} (l : List α) (g : α → α) (p : α → Bool)
    (h : ∀ a ∈ l, (p a = true → g a = a) ∧ p (g a) = p a) :
    (l.map g).filter p = l.filter p := by
  induction l with
  | nil => rfl
  | cons x xs ih =>
    rw [List.map_cons]
    rcases h x (List.mem_cons_self x xs) with ⟨hfix, hp⟩
    have ih' := ih fun a ha => h a (List.mem_cons_of_mem _ ha)
    by_cases hpx : p x = true
    · rw [List.filter_cons_of_pos (by rw [hp, hpx]), hfix hpx,
        List.filter_cons_of_pos hpx, ih']
    · rw [List.filter_cons_of_neg (by rw [hp]; exact hpx),
        List.filter_cons_of_neg hpx, ih']

lemma filter_filter_eq_of_imp {α : Type _} (l : List α) (p q : α → Bool)
    (h : ∀ a ∈ l, p a = true → q a = true) :
    (l.filter q).filter p = l.filter p := by
  induction l with
  | nil => rfl
  | cons x xs ih =>
    have ih' := ih fun a ha => h a (List.mem_cons_of_mem _ ha)
    by_cases hpx : p x = true
    · rw [List.filter_cons_of_pos (h x (List.mem_cons_self x xs) hpx),
        List.filter_cons_of_pos hpx, List.filter_cons_of_pos hpx, ih']
    · by_cases hqx : q x = true
      · rw [List.filter_cons_of_pos hqx, List.filter_cons_of_neg hpx,
          List.filter_cons_of_neg hpx, ih']
      · rw [List.filter_cons_of_neg hqx, List.filter_cons_of_neg hpx, ih']

lemma nodup_append_singleton {α : Type _} {l : List α} {a : α}
    (hnd : l.Nodup) (ha : a ∉ l) : (l ++ [a]).Nodup := by
  induction l with
  | nil => simp
  | cons x xs ih =>
    rcases List.nodup_cons.mp hnd with ⟨hx, hxs⟩
    have ha' : a ∉ xs := fun h => ha (List.mem_cons_of_mem _ h)
    have hax : x ≠ a := fun h => ha (h ▸ List.mem_cons_self x xs)
    rw [List.cons_append]
    refine List.nodup_cons.mpr ⟨?_, ih hxs ha'⟩
    intro hmem
    rcases List.mem_append.mp hmem with h | h
    · exact hx h
    · exact hax (by simpa using h)

lemma find_all_branches_shape (all : List Entry) (h : memory_utils.BranchInfo)
    (t : List memory_utils.BranchInfo)
    (hbs : memory_utils.find_all_branches all = h :: t) :
    h.is_active = true ∧ ∀ b ∈ t, b.is_active = false := by
  unfold memory_utils.find_all_branches at hbs
  cases hl : memory_utils.latestEntry all with
  | none => rw [hl] at hbs; simp at hbs
  | some latest =>
    rw [hl] at hbs
    dsimp only at hbs
    have hh := (List.cons.injEq _ _ _ _).mp hbs
    constructor
    · rw [← hh.1]
    · intro b hb
      rw [← hh.2] at hb
      obtain ⟨u, _, hb⟩ := List.mem_flatMap.mp hb
      unfold memory_utils.abandonedAt at hb
      dsimp only at hb
      split at hb
      · simp at hb
      · obtain ⟨k, _, hsome⟩ := List.mem_filterMap.mp hb
        (repeat' split at hsome) <;> simp_all
        rw [← hsome]


lemma MidInv_establish (sid : Nat) (exB : List (String × Nat))
    (msgs : List Entry) (msgIdOf : String → Option Nat)
    (acc : DB × List String × List WriteOp) (head : memory_utils.BranchInfo)
    (hact : head.is_active = true)
    (hnd : (acc.1.branches.map (·.id)).Nodup)
    (hex : ∀ q ∈ exB, ∃ b ∈ acc.1.branches,
      b.session_id = sid ∧ b.id = q.2 ∧ b.leaf_uuid = q.1) :
    ∃ aid, MidInv sid exB head.leaf_uuid acc.1.branches aid
      (sync_current.processBranch sid exB msgs msgIdOf acc head).1.branches := by
  obtain ⟨bid, g, tail, hbr, hpres, hform, hcase⟩ :=
    processBranch_branches_shape sid exB msgs msgIdOf acc head
  refine ⟨bid, ?_⟩
  have hids : ((acc.1.branches.map g).map (·.id)) = acc.1.branches.map (·.id) := by
    rw [List.map_map]
    exact List.map_congr_left fun a _ => (hpres a).1
  have hiff : ∀ row ∈ acc.1.branches, row.id ≠ bid → row.session_id = sid →
      ((g row).is_active = true ↔ (g row).id = bid) := by
    intro row _ hr hs
    rw [hform row hr, hact]
    by_cases ha : row.is_active = true
    · rw [if_pos ⟨rfl, hs, ha⟩]
      simp [hr]
    · rw [if_neg fun hc => ha hc.2.2]
      simp [ha, hr]
  have hsess : ∀ row, row.id ≠ bid → (g row).session_id = row.session_id :=
    fun row _ => (hpres row).2.1
  rcases hcase with ⟨hlp, htail, hbida⟩ | ⟨hlp, hbidv, t0, htail, ht0id, ht0s, ht0l, ht0a⟩
  · rw [htail, List.append_nil] at hbr
    obtain ⟨b0, hb0m, hb0s, hb0id, hb0l⟩ := hex _ (lookupLastPair_mem _ _ _ hlp)
    refine ⟨?_, ?_, ?_, ?_, Or.inl hlp⟩
    · intro b hb hbs
      rw [hbr] at hb
      obtain ⟨row, hrow, hgrow⟩ := List.mem_map.mp hb
      subst hgrow
      by_cases hr : row.id = bid
      · constructor
        · intro _; rw [(hpres row).1, hr]
        · intro _; rw [hbida row hr, hact]
      · exact hiff row hrow hr (by rw [← (hpres row).2.1]; exact hbs)
    · refine ⟨g b0, ?_, ?_, ?_, ?_, ?_⟩
      · rw [hbr]; exact List.mem_map_of_mem g hb0m
      · rw [(hpres b0).1, hb0id]
      · rw [(hpres b0).2.1, hb0s]
      · rw [(hpres b0).2.2, hb0l]
      · rw [hbida b0 hb0id, hact]
    · rw [hbr, hids]; exact hnd
    · rw [hbr]
      apply filter_map_eq_of_fixed
      intro a ha
      constructor
      · intro hpa
        have hans : ¬ a.session_id = sid := by simpa using hpa
        have haid : a.id ≠ bid := by
          intro hcontra
          apply hans
          have : a = b0 := List.inj_on_of_nodup_map hnd ha hb0m (by rw [hcontra, hb0id])
          rw [this, hb0s]
        rw [hform a haid, if_neg fun hc => hans hc.2.1]
      · simp [(hpres a).2.1]
  · rw [htail] at hbr
    have hfreshid : ∀ a ∈ acc.1.branches, a.id ≠ bid := by
      intro a ha
      rw [hbidv]
      exact Nat.ne_of_lt (lt_nextRowId _ _ (List.mem_map_of_mem (·.id) ha))
    refine ⟨?_, ?_, ?_, ?_, Or.inr ?_⟩
    · intro b hb hbs
      rw [hbr] at hb
      rcases List.mem_append.mp hb with hb | hb
      · obtain ⟨row, hrow, hgrow⟩ := List.mem_map.mp hb
        subst hgrow
        exact hiff row hrow (hfreshid row hrow)
          (by rw [← (hpres row).2.1]; exact hbs)
      · have hbt : b = t0 := by simpa using hb
        rw [hbt]
        constructor
        · intro _; exact ht0id
        · intro _; rw [ht0a, hact]
    · refine ⟨t0, ?_, ht0id, ht0s, ht0l, by rw [ht0a, hact]⟩
      rw [hbr]
      exact List.mem_append_right _ (by simp)
    · rw [hbr, List.map_append, hids]
      simp only [List.map_cons, List.map_nil]
      apply nodup_append_singleton hnd
      rw [ht0id, hbidv]
      intro hmem
      exact Nat.lt_irrefl _ (lt_nextRowId _ _ hmem)
    · rw [hbr, List.filter_append]
      have ht0f : List.filter (fun b => decide ¬ b.session_id = sid) [t0] = [] := by
        simp [ht0s]
      rw [ht0f, List.append_nil]
      apply filter_map_eq_of_fixed
      intro a ha
      constructor
      · intro hpa
        have hans : ¬ a.session_id = sid := by simpa using hpa
        rw [hform a (hfreshid a ha), if_neg fun hc => hans hc.2.1]
      · simp [(hpres a).2.1]
    · intro q hq
      obtain ⟨b, hbm, _, hbid, _⟩ := hex q hq
      rw [← hbid]
      exact hfreshid b hbm

lemma MidInv_tail_step (sid : Nat) (exB : List (String × Nat))
    (msgs : List Entry) (msgIdOf : String → Option Nat)
    (headLeaf : String) (orig : List BranchRow) (aid : Nat)
    (acc : DB × List String × List WriteOp) (br : memory_utils.BranchInfo)
    (hinact : br.is_active = false)
    (hleaf : br.leaf_uuid ≠ headLeaf)
    (hsec : (exB.map (·.2)).Nodup)
    (hex : ∀ q ∈ exB, ∃ b ∈ orig, b.session_id = sid ∧ b.id = q.2 ∧ b.leaf_uuid = q.1)
    (hndOrig : (orig.map (·.id)).Nodup)
    (inv : MidInv sid exB headLeaf orig aid acc.1.branches) :
    MidInv sid exB headLeaf orig aid
      (sync_current.processBranch sid exB msgs msgIdOf acc br).1.branches := by
  obtain ⟨bid, g, tail, hbr, hpres, hform, hcase⟩ :=
    processBranch_branches_shape sid exB msgs msgIdOf acc br
  have hgfix : ∀ row, row.id ≠ bid → g row = row := by
    intro row hr
    rw [hform row hr, if_neg fun hc => by rw [hinact] at hc; exact absurd hc.1 (by simp)]
  have hids : ((acc.1.branches.map g).map (·.id)) = acc.1.branches.map (·.id) := by
    rw [List.map_map]
    exact List.map_congr_left fun a _ => (hpres a).1
  have hbne : bid ≠ aid := by
    rcases hcase with ⟨hlp, _, _⟩ | ⟨hlp, hbidv, _⟩
    · rcases inv.protect with hpa | hall
      · exact lookupLastPair_ne_of_ne exB br.leaf_uuid headLeaf bid aid hsec hleaf hlp hpa
      · exact hall _ (lookupLastPair_mem _ _ _ hlp)
    · obtain ⟨brow, hbrm, hbrida, _⟩ := inv.arow
      rw [hbidv]
      intro hcontra
      have hlt : aid < nextRowId (acc.1.branches.map fun b => b.id) := by
        rw [← hbrida]
        exact lt_nextRowId _ _ (List.mem_map_of_mem (fun b => b.id) hbrm)
      rw [hcontra] at hlt
      exact Nat.lt_irrefl _ hlt
  refine ⟨?_, ?_, ?_, ?_, inv.protect⟩
  · intro b hb hbs
    rw [hbr] at hb
    rcases List.mem_append.mp hb with hb | hb
    · obtain ⟨row, hrow, hgrow⟩ := List.mem_map.mp hb
      subst hgrow
      by_cases hr : row.id = bid
      · constructor
        · intro hga
          rcases hcase with ⟨_, _, hbida⟩ | ⟨_, hbidv, _⟩
          · rw [hbida row hr, hinact] at hga
            exact absurd hga (by simp)
          · exfalso
            have hlt : row.id < nextRowId (acc.1.branches.map fun b => b.id) :=
              lt_nextRowId _ _ (List.mem_map_of_mem (fun b => b.id) hrow)
            rw [hbidv] at hr
            rw [hr] at hlt
            exact Nat.lt_irrefl _ hlt
        · intro hgid
          exfalso
          rw [(hpres row).1, hr] at hgid
          exact hbne hgid
      · rw [hgfix row hr]
        rw [hgfix row hr] at hbs
        exact inv.act_iff row hrow hbs
    · rcases hcase with ⟨_, htail, _⟩ | ⟨_, hbidv, t0, htail, ht0id, ht0s, ht0l, ht0a⟩
      · rw [htail] at hb; simp at hb
      · rw [htail] at hb
        have hbt : b = t0 := by simpa using hb
        rw [hbt]
        constructor
        · intro hga
          rw [ht0a, hinact] at hga
          exact absurd hga (by simp)
        · intro hgid
          exfalso
          rw [ht0id, hbidv] at hgid
          obtain ⟨brow, hbrm, hbrida, _⟩ := inv.arow
          have hlt : aid < nextRowId (acc.1.branches.map fun b => b.id) := by
            rw [← hbrida]
            exact lt_nextRowId _ _ (List.mem_map_of_mem (fun b => b.id) hbrm)
          rw [hgid] at hlt
          exact Nat.lt_irrefl _ hlt
  · obtain ⟨brow, hbrm, hbrida, hbrs, hbrl, hbra⟩ := inv.arow
    have hbrne : brow.id ≠ bid := by rw [hbrida]; exact fun h => hbne h.symm
    refine ⟨g brow, ?_, ?_, ?_, ?_, ?_⟩
    · rw [hbr]
      exact List.mem_append_left _ (List.mem_map_of_mem g hbrm)
    · rw [hgfix brow hbrne]; exact hbrida
    · rw [hgfix brow hbrne]; exact hbrs
    · rw [hgfix brow hbrne]; exact hbrl
    · rw [hgfix brow hbrne]; exact hbra
  · rw [hbr, List.map_append, hids]
    rcases hcase with ⟨_, htail, _⟩ | ⟨_, hbidv, t0, htail, ht0id, _⟩
    · rw [htail, List.map_nil, List.append_nil]
      exact inv.idsNodup
    · rw [htail]
      simp only [List.map_cons, List.map_nil]
      apply nodup_append_singleton inv.idsNodup
      rw [ht0id, hbidv]
      intro hmem
      exact Nat.lt_irrefl _ (lt_nextRowId _ _ hmem)
  · rw [hbr, List.filter_append]
    have hmapf : List.filter (fun b => decide ¬ b.session_id = sid)
        (acc.1.branches.map g) =
        List.filter (fun b => decide ¬ b.session_id = sid) acc.1.branches := by
      apply filter_map_eq_of_fixed
      intro a ha
      constructor
      · intro hpa
        have hans : ¬ a.session_id = sid := by simpa using hpa
        have haid : a.id ≠ bid := by
          rcases hcase with ⟨hlp, _, _⟩ | ⟨_, hbidv, _⟩
          · obtain ⟨b1, hb1m, hb1s, hb1id, _⟩ := hex _ (lookupLastPair_mem _ _ _ hlp)
            intro hcontra
            apply hans
            have ham : a ∈ orig.filter fun b => decide ¬ b.session_id = sid := by
              rw [← inv.foreign]
              exact List.mem_filter.mpr ⟨ha, by simpa using hans⟩
            have : a = b1 := List.inj_on_of_nodup_map hndOrig
              (List.mem_of_mem_filter ham) hb1m (by rw [hcontra, hb1id])
            rw [this, hb1s]
          · rw [hbidv]
            exact Nat.ne_of_lt (lt_nextRowId _ _ (List.mem_map_of_mem (·.id) ha))
        exact hgfix a haid
      · simp [(hpres a).2.1]
    rcases hcase with ⟨_, htail, _⟩ | ⟨_, _, t0, htail, _, ht0s, _⟩
    · rw [htail, List.filter_nil, List.append_nil, hmapf]
      exact inv.foreign
    · rw [htail]
      have ht0f : List.filter (fun b => decide ¬ b.session_id = sid) [t0] = [] := by
        simp [ht0s]
      rw [ht0f, List.append_nil, hmapf]
      exact inv.foreign

lemma MidInv_branchFold (sid : Nat) (exB : List (String × Nat))
    (msgs : List Entry) (msgIdOf : String → Option Nat)
    (headLeaf : String) (orig : List BranchRow) (aid : Nat)
    (bs : List memory_utils.BranchInfo)
    (hbs : ∀ br ∈ bs, br.is_active = false ∧ br.leaf_uuid ≠ headLeaf)
    (hsec : (exB.map (·.2)).Nodup)
    (hex : ∀ q ∈ exB, ∃ b ∈ orig, b.session_id = sid ∧ b.id = q.2 ∧ b.leaf_uuid = q.1)
    (hndOrig : (orig.map (·.id)).Nodup) :
    ∀ acc : DB × List String × List WriteOp,
      MidInv sid exB headLeaf orig aid acc.1.branches →
      MidInv sid exB headLeaf orig aid
        ((bs.foldl (sync_current.processBranch sid exB msgs msgIdOf) acc).1).branches := by
  induction bs with
  | nil => intro acc inv; exact inv
  | cons br rest ih =>
    intro acc inv
    rw [List.foldl_cons]
    exact ih (fun b hb => hbs b (List.mem_cons_of_mem _ hb)) _
      (MidInv_tail_step sid exB msgs msgIdOf headLeaf orig aid acc br
        (hbs br (List.mem_cons_self _ _)).1 (hbs br (List.mem_cons_self _ _)).2
        hsec hex hndOrig inv)

lemma MidInv_staleStep (sid : Nat) (exB : List (String × Nat))
    (headLeaf : String) (orig : List BranchRow) (aid : Nat)
    (leaves : List String) (acc : DB × List WriteOp) (q : String × Nat)
    (hq : q ∈ exB)
    (hhead : headLeaf ∈ leaves)
    (hsec : (exB.map (·.2)).Nodup)
    (hex : ∀ p ∈ exB, ∃ b ∈ orig, b.session_id = sid ∧ b.id = p.2 ∧ b.leaf_uuid = p.1)
    (hndOrig : (orig.map (·.id)).Nodup)
    (inv : MidInv sid exB headLeaf orig aid acc.1.branches) :
    MidInv sid exB headLeaf orig aid
      (sync_current.staleStep leaves acc q).1.branches := by
  unfold sync_current.staleStep
  by_cases hin : q.1 ∈ leaves
  · rw [if_pos hin]; exact inv
  · rw [if_neg hin]
    dsimp only
    have hqaid : q.2 ≠ aid := by
      rcases inv.protect with hpa | hall
      · intro hcontra
        apply hin
        have hpam := lookupLastPair_mem _ _ _ hpa
        have : q = (headLeaf, aid) :=
          List.inj_on_of_nodup_map hsec hq hpam (by simpa using hcontra)
        rw [show q.1 = headLeaf from by rw [this]]
        exact hhead
      · exact hall q hq
    refine ⟨?_, ?_, ?_, ?_, inv.protect⟩
    · intro b hb hbs
      exact inv.act_iff b (List.mem_of_mem_filter hb) hbs
    · obtain ⟨brow, hbrm, hbrida, hbrs, hbrl, hbra⟩ := inv.arow
      refine ⟨brow, ?_, hbrida, hbrs, hbrl, hbra⟩
      refine List.mem_filter.mpr ⟨hbrm, ?_⟩
      simp only [decide_eq_true_eq]
      rw [hbrida]
      exact fun h => hqaid h.symm
    · exact List.Nodup.sublist ((List.filter_sublist _).map _) inv.idsNodup
    · have hcomm := filter_filter_eq_of_imp acc.1.branches
        (fun b => decide ¬ b.session_id = sid) (fun b => decide (b.id ≠ q.2)) ?_
      · rw [hcomm]
        exact inv.foreign
      · intro a ha hpa
        have hans : ¬ a.session_id = sid := by simpa using hpa
        obtain ⟨b1, hb1m, hb1s, hb1id, _⟩ := hex q hq
        simp only [decide_eq_true_eq]
        intro hcontra
        apply hans
        have ham : a ∈ orig.filter fun b => decide ¬ b.session_id = sid := by
          rw [← inv.foreign]
          exact List.mem_filter.mpr ⟨ha, by simpa using hans⟩
        have : a = b1 := List.inj_on_of_nodup_map hndOrig
          (List.mem_of_mem_filter ham) hb1m (by rw [hcontra, hb1id])
        rw [this, hb1s]

lemma MidInv_staleFold (sid : Nat) (exB : List (String × Nat))
    (headLeaf : String) (orig : List BranchRow) (aid : Nat)
    (leaves : List String) (qs : List (String × Nat))
    (hqs : ∀ q ∈ qs, q ∈ exB)
    (hhead : headLeaf ∈ leaves)
    (hsec : (exB.map (·.2)).Nodup)
    (hex : ∀ p ∈ exB, ∃ b ∈ orig, b.session_id = sid ∧ b.id = p.2 ∧ b.leaf_uuid = p.1)
    (hndOrig : (orig.map (·.id)).Nodup) :
    ∀ acc : DB × List WriteOp,
      MidInv sid exB headLeaf orig aid acc.1.branches →
      MidInv sid exB headLeaf orig aid
        ((qs.foldl (sync_current.staleStep leaves) acc).1).branches := by
  induction qs with
  | nil => intro acc inv; exact inv
  | cons q rest ih =>
    intro acc inv
    rw [List.foldl_cons]
    exact ih (fun p hp => hqs p (List.mem_cons_of_mem _ hp)) _
      (MidInv_staleStep sid exB headLeaf orig aid leaves acc q
        (hqs q (List.mem_cons_self _ _)) hhead hsec hex hndOrig inv)

lemma MidInv_activeUnique (sid : Nat) (exB : List (String × Nat))
    (headLeaf : String) (orig : List BranchRow) (aid : Nat)
    (cur : List BranchRow)
    (inv : MidInv sid exB headLeaf orig aid cur)
    (horig : ∀ b ∈ orig,
      (orig.filter fun x => x.session_id = b.session_id ∧ x.is_active).length = 1) :
    ∀ b ∈ cur, (cur.filter fun x => x.session_id = b.session_id ∧ x.is_active).length = 1 := by
  intro b hb
  by_cases hbs : b.session_id = sid
  · obtain ⟨brow, hbrm, hbrida, hbrs, hbrl, hbra⟩ := inv.arow
    have hsingle : (cur.filter fun x =>
        decide (x.session_id = b.session_id ∧ x.is_active = true)) = [brow] := by
      apply filter_eq_singleton_of cur _ brow (List.Nodup.of_map _ inv.idsNodup) hbrm
      · simp only [decide_eq_true_eq]
        exact ⟨by rw [hbrs, hbs], hbra⟩
      · intro x hx hpx
        simp only [decide_eq_true_eq] at hpx
        have hxid : x.id = aid :=
          (inv.act_iff x hx (by rw [hpx.1, hbs])).mp hpx.2
        exact List.inj_on_of_nodup_map inv.idsNodup hx hbrm (by rw [hxid, hbrida])
    rw [hsingle]
    rfl
  · have hbm : b ∈ orig := by
      have : b ∈ orig.filter fun x => decide ¬ x.session_id = sid := by
        rw [← inv.foreign]
        exact List.mem_filter.mpr ⟨hb, by simpa using hbs⟩
      exact List.mem_of_mem_filter this
    have himp : ∀ l : List BranchRow, ∀ a ∈ l,
        decide (a.session_id = b.session_id ∧ a.is_active = true) = true →
        decide (¬ a.session_id = sid) = true := by
      intro l a _ hpa
      simp only [decide_eq_true_eq] at hpa ⊢
      rw [hpa.1]
      exact hbs
    have h1 := filter_filter_eq_of_imp cur
      (fun x => decide (x.session_id = b.session_id ∧ x.is_active = true))
      (fun x => decide ¬ x.session_id = sid) (himp cur)
    have h2 := filter_filter_eq_of_imp orig
      (fun x => decide (x.session_id = b.session_id ∧ x.is_active = true))
      (fun x => decide ¬ x.session_id = sid) (himp orig)
    rw [← h1, inv.foreign, h2]
    exact horig b hbm

/-- C2 (amended): the active-branch uniqueness invariant holds after every
`sync_session` commit, provided no two branches detected in the log share a
leaf uuid (which holds whenever the log's record uuids are unique).  The
head branch emitted by `find_all_branches` is active; the step 4 loop makes
its row the single active row of the session and forces every other row of
the session inactive; the stale cleanup only deletes rows whose snapshot
leaf is no longer detected, which never includes the active row; rows of
other sessions are untouched.  (The raw claim, quantified over logs with
duplicate record uuids as well, is refuted by `C2_counterexample`; the
bulk path writes no branch rows at all, so it preserves the invariant
trivially.) -/
theorem C2_active_unique (db : DB) (file : sync_current.SyncFile) (d : String)
    (hwf : WFStore db)
    (hleaves : ((memory_utils.find_all_branches
      (memory_utils.parse_all_with_uuids file.lines)).map (·.leaf_uuid)).Nodup)
    (hinv : activeUniqueInv db) :
    activeUniqueInv (sync_current.sync_session db file d).1 := by
  have hppb := (projectPhase_rest db d).2.2.1
  unfold sync_current.sync_session
  dsimp only
  split
  · intro b hb
    unfold activeBranchCount
    rw [hppb] at hb ⊢
    exact hinv b hb
  · split
    · intro b hb
      unfold activeBranchCount
      rw [hppb] at hb ⊢
      exact hinv b hb
    · split
      · intro b hb
        unfold activeBranchCount
        rw [hppb] at hb ⊢
        exact hinv b hb
      · rename_i hentries hbranches hmessages
        set dbp := (sync_current.projectPhase db d).1 with hdbp
        set su := sync_current.sessionUpsert dbp (sync_current.sessionUuidOfStem file.stem)
          (((dbp.projects.find? fun p =>
            p.path = sync_current.decodeProjectPath d).map (·.id)).getD 0)
          (memory_utils.extract_session_metadata
            (memory_utils.parse_all_with_uuids file.lines)) with hsu
        have hsub : su.1.branches = db.branches := by
          rw [(sessionUpsert_rest dbp _ _ _).2.2.1, hppb]
        set ins := sync_current.insertMessagesGo su.2.1
          (memory_utils.parse_jsonl_file file.lines) su.1
          ((su.1.messages.filter fun m =>
            m.session_id = su.2.1 ∧ m.uuid.isSome).filterMap (·.uuid))
          0 ((sync_current.projectPhase db d).2 ++ [su.2.2]) with hins
        obtain ⟨newRows, _, _, _, _, hbrI, _, _⟩ :=
          insertMessagesGo_spec su.2.1 (memory_utils.parse_jsonl_file file.lines)
            su.1
            ((su.1.messages.filter fun m =>
              m.session_id = su.2.1 ∧ m.uuid.isSome).filterMap (·.uuid))
            0 ((sync_current.projectPhase db d).2 ++ [su.2.2])
        rw [← hins] at hbrI
        have hbrchain : ins.1.branches = db.branches := by rw [hbrI, hsub]
        have hndIns : (ins.1.branches.map (·.id)).Nodup := by
          rw [hbrchain]; exact hwf.branchIdsNodup
        set exB := (ins.1.branches.filter fun b => b.session_id = su.2.1).map
          (fun b => (b.leaf_uuid, b.id)) with hexB
        have hexI : ∀ q ∈ exB, ∃ b ∈ ins.1.branches,
            b.session_id = su.2.1 ∧ b.id = q.2 ∧ b.leaf_uuid = q.1 := by
          intro q hq
          rw [hexB] at hq
          obtain ⟨b, hbf, hbq⟩ := List.mem_map.mp hq
          refine ⟨b, List.mem_of_mem_filter hbf, ?_, ?_, ?_⟩
          · simpa using (List.mem_filter.mp hbf).2
          · rw [← hbq]
          · rw [← hbq]
        have hsecI : (exB.map (·.2)).Nodup := by
          rw [hexB, List.map_map]
          exact List.Nodup.sublist ((List.filter_sublist _).map _) hndIns
        cases hfb : memory_utils.find_all_branches
            (memory_utils.parse_all_with_uuids file.lines) with
        | nil => exact absurd hfb hbranches
        | cons head tailB =>
          obtain ⟨hacthead, htail⟩ := find_all_branches_shape _ head tailB hfb
          have hleafne : ∀ b ∈ tailB, b.leaf_uuid ≠ head.leaf_uuid := by
            rw [hfb, List.map_cons] at hleaves
            intro b hb heq
            exact (List.nodup_cons.mp hleaves).1
              (heq ▸ List.mem_map_of_mem (·.leaf_uuid) hb)
          rw [List.foldl_cons]
          set step := sync_current.processBranch su.2.1 exB
            (memory_utils.parse_jsonl_file file.lines)
            (sync_current.uuidMsgId ins.1 su.2.1) with hstep
          set accH := step (ins.1, ([] : List String), ins.2.2.2) head with haccH
          set bl := tailB.foldl step accH with hbl
          obtain ⟨aid, inv0⟩ := MidInv_establish su.2.1 exB
            (memory_utils.parse_jsonl_file file.lines)
            (sync_current.uuidMsgId ins.1 su.2.1)
            (ins.1, ([] : List String), ins.2.2.2)
            head hacthead hndIns hexI
          have inv1 : MidInv su.2.1 exB head.leaf_uuid ins.1.branches aid
              bl.1.branches := by
            rw [hbl]
            exact MidInv_branchFold su.2.1 exB
              (memory_utils.parse_jsonl_file file.lines)
              (sync_current.uuidMsgId ins.1 su.2.1)
              head.leaf_uuid ins.1.branches aid tailB
              (fun b hb => ⟨htail b hb, hleafne b hb⟩) hsecI hexI hndIns
              accH (by rw [haccH, hstep]; exact inv0)
          have hlvmem : head.leaf_uuid ∈ bl.2.1 := by
            rw [hbl, hstep, branchFold_leaves, haccH, hstep, processBranch_leaves]
            simp
          have inv2 : MidInv su.2.1 exB head.leaf_uuid ins.1.branches aid
              ((exB.foldl (sync_current.staleStep bl.2.1) (bl.1, bl.2.2)).1).branches :=
            MidInv_staleFold su.2.1 exB head.leaf_uuid ins.1.branches aid
              bl.2.1 exB (fun q hq => hq) hlvmem hsecI hexI hndIns
              (bl.1, bl.2.2) inv1
          have horig : ∀ b ∈ ins.1.branches,
              (ins.1.branches.filter fun x =>
                x.session_id = b.session_id ∧ x.is_active).length = 1 := by
            rw [hbrchain]
            intro b hb
            exact hinv b hb
          have hfin := MidInv_activeUnique su.2.1 exB head.leaf_uuid ins.1.branches aid
            _ inv2 horig
          intro b hb
          unfold activeBranchCount
          dsimp only at hb ⊢
          exact hfin b hb

/-- Witness for C2 at a concrete input: syncing the linear session S1 into
the empty store satisfies every hypothesis and yields a store with exactly
one active branch row. -/
theorem C2_active_unique_witness :
    activeUniqueInv (sync_current.sync_session emptyDB Scenario.s1SyncFile "-tmp-proj").1 :=
  C2_active_unique emptyDB Scenario.s1SyncFile "-tmp-proj"
    ⟨by decide, by decide, by decide, by decide, by decide⟩ (by decide) (by decide)

lemma bmFold_bm_append (bid : Nat) (msgIdOf : String → Option Nat) (us : List String) :
    ∀ acc : DB × List WriteOp, ∃ newPairs : List (Nat × Nat),
      ((us.foldl (sync_current.bmInsertStep bid msgIdOf) acc).1).branch_messages =
        acc.1.branch_messages ++ newPairs := by
  induction us with
  | nil => intro acc; exact ⟨[], by simp⟩
  | cons u rest ih =>
    intro acc
    obtain ⟨new, hnew⟩ := ih (sync_current.bmInsertStep bid msgIdOf acc u)
    have hstep : ∃ pre : List (Nat × Nat),
        (sync_current.bmInsertStep bid msgIdOf acc u).1.branch_messages =
          acc.1.branch_messages ++ pre := by
      unfold sync_current.bmInsertStep
      (repeat' split) <;> first | exact ⟨_, rfl⟩ | exact ⟨[], (List.append_nil _).symm⟩
    obtain ⟨pre, hpre⟩ := hstep
    exact ⟨pre ++ new, by rw [List.foldl_cons, hnew, hpre, List.append_assoc]⟩

lemma processBranch_bm_shape (sid : Nat) (exB : List (String × Nat))
    (msgs : List Entry) (msgIdOf : String → Option Nat)
    (acc : DB × List String × List WriteOp) (br : memory_utils.BranchInfo) :
    ∃ (bid : Nat) (newPairs : List (Nat × Nat)),
      (sync_current.processBranch sid exB msgs msgIdOf acc br).1.branch_messages =
        acc.1.branch_messages.filter (fun p => decide (p.1 ≠ bid)) ++ newPairs ∧
      (lookupLastPair exB br.leaf_uuid = some bid ∨
        bid = nextRowId (acc.1.branches.map (·.id))) := by
  unfold sync_current.processBranch
  dsimp only
  rcases upsertBranchRow_shape sid exB br
      (memory_utils.extract_session_metadata (sync_current.branchMsgsOf msgs br))
      (memory_utils.compute_branch_metadata (sync_current.branchMsgsOf msgs br)).1
      (memory_utils.compute_branch_metadata (sync_current.branchMsgsOf msgs br)).2.1
      (memory_utils.compute_branch_metadata (sync_current.branchMsgsOf msgs br)).2.2
      acc.1 with
    ⟨bid, g0, hup, hlp, _, _, _⟩ | ⟨bid, t0, hup, hlp, hbidv, _, _, _, _⟩
  · rw [hup]
    dsimp only
    obtain ⟨newPairs, hnp⟩ := bmFold_bm_append bid msgIdOf br.uuids _
    refine ⟨bid, newPairs, ?_, Or.inl hlp⟩
    rw [hnp]
    split <;> rfl
  · rw [hup]
    dsimp only
    obtain ⟨newPairs, hnp⟩ := bmFold_bm_append bid msgIdOf br.uuids _
    refine ⟨bid, newPairs, ?_, Or.inr hbidv⟩
    rw [hnp]
    split <;> rfl

lemma processBranch_foreign_pair (sid : Nat) (exB : List (String × Nat))
    (msgs : List Entry) (msgIdOf : String → Option Nat)
    (acc : DB × List String × List WriteOp) (br : memory_utils.BranchInfo)
    (b0 : BranchRow) (p0 : Nat × Nat)
    (hb0s : ¬ b0.session_id = sid)
    (hqex : ∀ q ∈ exB, q.2 ≠ b0.id)
    (hp0 : p0.1 = b0.id)
    (hb0 : b0 ∈ acc.1.branches)
    (hp0m : p0 ∈ acc.1.branch_messages) :
    b0 ∈ (sync_current.processBranch sid exB msgs msgIdOf acc br).1.branches ∧
    p0 ∈ (sync_current.processBranch sid exB msgs msgIdOf acc br).1.branch_messages := by
  obtain ⟨bid, g, tail, hbr, hpres, hform, hcase⟩ :=
    processBranch_branches_shape sid exB msgs msgIdOf acc br
  obtain ⟨bid2, newPairs, hbm, hbid2⟩ :=
    processBranch_bm_shape sid exB msgs msgIdOf acc br
  have hbidne : b0.id ≠ bid := by
    rcases hcase with ⟨hlp, _, _⟩ | ⟨hlp, hbidv, _⟩
    · exact fun h => hqex _ (lookupLastPair_mem _ _ _ hlp) (h ▸ rfl)
    · rw [hbidv]
      exact Nat.ne_of_lt (lt_nextRowId _ _ (List.mem_map_of_mem (fun b => b.id) hb0))
  have hbid2ne : b0.id ≠ bid2 := by
    rcases hbid2 with hlp | hbidv
    · exact fun h => hqex _ (lookupLastPair_mem _ _ _ hlp) (h ▸ rfl)
    · rw [hbidv]
      exact Nat.ne_of_lt (lt_nextRowId _ _ (List.mem_map_of_mem (fun b => b.id) hb0))
  constructor
  · rw [hbr]
    apply List.mem_append_left
    have : g b0 = b0 := by
      rw [hform b0 hbidne, if_neg fun hc => hb0s hc.2.1]
    rw [← this]
    exact List.mem_map_of_mem g hb0
  · rw [hbm]
    apply List.mem_append_left
    refine List.mem_filter.mpr ⟨hp0m, ?_⟩
    simp only [decide_eq_true_eq]
    rw [hp0]
    exact hbid2ne

lemma branchFold_foreign_pair (sid : Nat) (exB : List (String × Nat))
    (msgs : List Entry) (msgIdOf : String → Option Nat)
    (bs : List memory_utils.BranchInfo) (b0 : BranchRow) (p0 : Nat × Nat)
    (hb0s : ¬ b0.session_id = sid)
    (hqex : ∀ q ∈ exB, q.2 ≠ b0.id)
    (hp0 : p0.1 = b0.id) :
    ∀ acc : DB × List String × List WriteOp,
      b0 ∈ acc.1.branches → p0 ∈ acc.1.branch_messages →
      b0 ∈ ((bs.foldl (sync_current.processBranch sid exB msgs msgIdOf) acc).1).branches ∧
      p0 ∈ ((bs.foldl (sync_current.processBranch sid exB msgs msgIdOf) acc).1).branch_messages := by
  induction bs with
  | nil => intro acc h1 h2; exact ⟨h1, h2⟩
  | cons br rest ih =>
    intro acc h1 h2
    rw [List.foldl_cons]
    obtain ⟨h1', h2'⟩ := processBranch_foreign_pair sid exB msgs msgIdOf acc br
      b0 p0 hb0s hqex hp0 h1 h2
    exact ih _ h1' h2'

lemma staleFold_foreign_pair (leaves : List String) (qs : List (String × Nat))
    (b0 : BranchRow) (p0 : Nat × Nat)
    (hqs : ∀ q ∈ qs, q.2 ≠ b0.id)
    (hp0 : p0.1 = b0.id) :
    ∀ acc : DB × List WriteOp, p0 ∈ acc.1.branch_messages →
      p0 ∈ ((qs.foldl (sync_current.staleStep leaves) acc).1).branch_messages := by
  induction qs with
  | nil => intro acc h; exact h
  | cons q rest ih =>
    intro acc h
    rw [List.foldl_cons]
    apply ih fun p hp => hqs p (List.mem_cons_of_mem _ hp)
    unfold sync_current.staleStep
    by_cases hin : q.1 ∈ leaves
    · rw [if_pos hin]; exact h
    · rw [if_neg hin]
      dsimp only
      refine List.mem_filter.mpr ⟨h, ?_⟩
      simp only [decide_eq_true_eq]
      rw [hp0]
      exact (hqs q (List.mem_cons_self _ _)).symm

/-- C3 (amended): the no-orphan invariant is preserved by every
`sync_session` commit: the orphan cleanup at the end of the call deletes
every message row of the synced session that no branch-membership row of
the session references, and message rows of other sessions keep their
referencing branch-membership rows, because the branch loop only deletes
membership rows of branch ids that belong to the synced session (snapshot
ids or freshly allocated ones).  The second half of the claim fails for the
bulk import path, which maintains no branch tables at all
(`C3_counterexample`): a bulk import commits message rows that no
branch-membership row references. -/
theorem C3_no_orphans (db : DB) (file : sync_current.SyncFile) (d : String)
    (hwf : WFStore db) (hinv : noOrphanInv db) :
    noOrphanInv (sync_current.sync_session db file d).1 := by
  have hppm := (projectPhase_rest db d).2.1
  have hppb := (projectPhase_rest db d).2.2.1
  have hppbm := (projectPhase_rest db d).2.2.2.1
  unfold sync_current.sync_session
  dsimp only
  split
  · intro m hm
    rw [hppm] at hm
    obtain ⟨p, hp, hpid⟩ := hinv m hm
    exact ⟨p, by rw [hppbm]; exact hp, hpid⟩
  · split
    · intro m hm
      rw [hppm] at hm
      obtain ⟨p, hp, hpid⟩ := hinv m hm
      exact ⟨p, by rw [hppbm]; exact hp, hpid⟩
    · split
      · intro m hm
        rw [hppm] at hm
        obtain ⟨p, hp, hpid⟩ := hinv m hm
        exact ⟨p, by rw [hppbm]; exact hp, hpid⟩
      · rename_i hentries hbranches hmessages
        set dbp := (sync_current.projectPhase db d).1 with hdbp
        set su := sync_current.sessionUpsert dbp (sync_current.sessionUuidOfStem file.stem)
          (((dbp.projects.find? fun p =>
            p.path = sync_current.decodeProjectPath d).map (·.id)).getD 0)
          (memory_utils.extract_session_metadata
            (memory_utils.parse_all_with_uuids file.lines)) with hsu
        have hsum : su.1.messages = db.messages := by
          rw [(sessionUpsert_rest dbp _ _ _).2.1, hppm]
        have hsub : su.1.branches = db.branches := by
          rw [(sessionUpsert_rest dbp _ _ _).2.2.1, hppb]
        have hsubm : su.1.branch_messages = db.branch_messages := by
          rw [(sessionUpsert_rest dbp _ _ _).2.2.2.1, hppbm]
        set ins := sync_current.insertMessagesGo su.2.1
          (memory_utils.parse_jsonl_file file.lines) su.1
          ((su.1.messages.filter fun m =>
            m.session_id = su.2.1 ∧ m.uuid.isSome).filterMap (·.uuid))
          0 ((sync_current.projectPhase db d).2 ++ [su.2.2]) with hins
        obtain ⟨newRows, hmsgs, hprops, _, _, hbrI, hbmI, _⟩ :=
          insertMessagesGo_spec su.2.1 (memory_utils.parse_jsonl_file file.lines)
            su.1
            ((su.1.messages.filter fun m =>
              m.session_id = su.2.1 ∧ m.uuid.isSome).filterMap (·.uuid))
            0 ((sync_current.projectPhase db d).2 ++ [su.2.2])
        rw [← hins] at hmsgs hbrI hbmI
        have hbrchain : ins.1.branches = db.branches := by rw [hbrI, hsub]
        have hbmchain : ins.1.branch_messages = db.branch_messages := by
          rw [hbmI, hsubm]
        set exB := (ins.1.branches.filter fun b => b.session_id = su.2.1).map
          (fun b => (b.leaf_uuid, b.id)) with hexB
        set step := sync_current.processBranch su.2.1 exB
          (memory_utils.parse_jsonl_file file.lines)
          (sync_current.uuidMsgId ins.1 su.2.1) with hstep
        set bl := (memory_utils.find_all_branches
          (memory_utils.parse_all_with_uuids file.lines)).foldl step
          (ins.1, ([] : List String), ins.2.2.2) with hbl
        set sc := sync_current.staleBranchCleanup exB bl.2.1 (bl.1, bl.2.2) with hsc
        have hscm : sc.1.messages = db.messages ++ newRows := by
          rw [hsc, staleCleanup_messages, hbl, hstep, branchFold_messages]
          dsimp only
          rw [hmsgs, hsum]
        intro m2 hm2
        dsimp only at hm2 ⊢
        obtain ⟨hm2b, hpredb⟩ := List.mem_filter.mp hm2
        have hnot := of_decide_eq_true hpredb
        by_cases hms : m2.session_id = su.2.1
        · have href : sync_current.referencedInSession sc.1 su.2.1 m2 = true := by
            by_contra h
            exact hnot ⟨hms, h⟩
          unfold sync_current.referencedInSession at href
          obtain ⟨p, hp, hcond⟩ := List.any_eq_true.mp href
          exact ⟨p, hp, (of_decide_eq_true hcond).1⟩
        · have hm2db : m2 ∈ db.messages := by
            rw [hscm] at hm2b
            rcases List.mem_append.mp hm2b with h | h
            · exact h
            · exact absurd (hprops m2 h).1 hms
          obtain ⟨p0, hp0m, hp0id⟩ := hinv m2 hm2db
          obtain ⟨b0, hb0m, hb0id, m', hm'm, hm'id, hm's⟩ := hwf.bmConsistent p0 hp0m
          have hm'm2 : m' = m2 :=
            List.inj_on_of_nodup_map hwf.messageIdsNodup hm'm hm2db
              (by rw [hm'id, hp0id])
          have hb0s : ¬ b0.session_id = su.2.1 := fun hc =>
            hms (by rw [← hm'm2, hm's, hc])
          have hqex : ∀ q ∈ exB, q.2 ≠ b0.id := by
            intro q hq hcontra
            rw [hexB] at hq
            obtain ⟨bq, hbqf, hbqe⟩ := List.mem_map.mp hq
            have hbqm : bq ∈ db.branches := by
              rw [← hbrchain]; exact List.mem_of_mem_filter hbqf
            have hbqs : bq.session_id = su.2.1 := by
              simpa using (List.mem_filter.mp hbqf).2
            have hbqid : bq.id = b0.id := by rw [← hcontra, ← hbqe]
            have hbqb0 : bq = b0 :=
              List.inj_on_of_nodup_map hwf.branchIdsNodup hbqm hb0m hbqid
            exact hb0s (by rw [← hbqb0, hbqs])
          have hfold := branchFold_foreign_pair su.2.1 exB
            (memory_utils.parse_jsonl_file file.lines)
            (sync_current.uuidMsgId ins.1 su.2.1)
            (memory_utils.find_all_branches (memory_utils.parse_all_with_uuids file.lines))
            b0 p0 hb0s hqex hb0id.symm
            (ins.1, ([] : List String), ins.2.2.2)
            (by dsimp only; rw [hbrchain]; exact hb0m)
            (by dsimp only; rw [hbmchain]; exact hp0m)
          have hstale := staleFold_foreign_pair bl.2.1 exB b0 p0 hqex hb0id.symm
            (bl.1, bl.2.2) (by dsimp only; rw [hbl, hstep]; exact hfold.2)
          refine ⟨p0, ?_, hp0id⟩
          rw [hsc]
          unfold sync_current.staleBranchCleanup
          exact hstale

/-- Witness for C3 at a concrete input: syncing the linear session S1 into
the empty store leaves no message row unreferenced. -/
theorem C3_no_orphans_witness :
    noOrphanInv (sync_current.sync_session emptyDB Scenario.s1SyncFile "-tmp-proj").1 :=
  C3_no_orphans emptyDB Scenario.s1SyncFile "-tmp-proj"
    ⟨by decide, by decide, by decide, by decide, by decide⟩ (by decide)
